import Mathlib

/-!
# Two-player number guessing game: server scoring rule and game loop, client loop

A shallow embedding of `src/server.c` (`calculate_score`, `send_scorecard`,
`handle_game`) and of the main loop of `src/client.c`.

Conventions of the embedding.

* A C `int` is a Lean `Int` in the range `INT_MIN .. INT_MAX`; every `int`
  operation of the source is followed by `wrap32`, reduction modulo `2^32` into
  that range (two's complement).  This is also what `abs` does on the usual
  targets: `abs (INT_MIN)` is `INT_MIN`.
* A C string is a list of bytes (`List Nat`); string literals of the source are
  written as Lean string literals and encoded to UTF-8 by `bytes`.
* The server is a function from the secret and the guesses that the `read`
  calls deliver to the final globals and the list of calls made on the two
  player sockets (`Server.trace`).  The calls `send`, `read` and `close` are
  taken to return; the value a `read` leaves in `guess` is whatever the
  environment provides, also when the call fails.
* The client is one iteration of its loop, as a function of the result of the
  `read`; an iteration that reads past the end of `buffer` has no result.
-/

namespace GuessGame

/-! ## Machine integers -/

/-- Smallest value of a 32-bit `int`. -/
def INT_MIN : Int := -2147483648

/-- Largest value of a 32-bit `int`. -/
def INT_MAX : Int := 2147483647

/-- The value is representable as a 32-bit `int`. -/
def InRange (x : Int) : Prop := INT_MIN ≤ x ∧ x ≤ INT_MAX

instance (x : Int) : Decidable (InRange x) := by
  unfold InRange; exact inferInstance

/-- Two's complement reduction of a mathematical integer to a 32-bit `int`. -/
def wrap32 (x : Int) : Int := (x + 2147483648) % 4294967296 - 2147483648

/-- The libc function `abs` on `int`: `x < 0 ? -x : x`, in `int` arithmetic. -/
def c_abs (x : Int) : Int := wrap32 (if x < 0 then -x else x)

/-! ## `calculate_score` (server.c, lines 42-55) -/

/-- Embedding of `int calculate_score(int guess, int actual)`. -/
def calculate_score (guess actual : Int) : Int :=
  let diff := c_abs (wrap32 (guess - actual))
  if diff = 0 then 100
  else if diff ≤ 10 then 50
  else if diff ≤ 20 then 45
  else if diff ≤ 30 then 40
  else if diff ≤ 40 then 35
  else if diff ≤ 50 then 30
  else if diff ≤ 60 then 25
  else if diff ≤ 70 then 20
  else if diff ≤ 80 then 15
  else if diff ≤ 90 then 10
  else 5

/-- The scoring table of the specification, as a function of the distance. -/
def score_table (diff : Int) : Int :=
  if diff = 0 then 100
  else if diff ≤ 10 then 50
  else if diff ≤ 20 then 45
  else if diff ≤ 30 then 40
  else if diff ≤ 40 then 35
  else if diff ≤ 50 then 30
  else if diff ≤ 60 then 25
  else if diff ≤ 70 then 20
  else if diff ≤ 80 then 15
  else if diff ≤ 90 then 10
  else 5

/-! ## Text

C strings are byte lists.  The formatted output of the libc functions
`snprintf` (conversion `%d`), `strlen` and `strstr` is modelled from their
documented behaviour. -/

/-- UTF-8 encoding of one character of a string literal of the source. -/
def utf8_char (c : Char) : List Nat :=
  let n := c.toNat
  if n < 128 then [n]
  else if n < 2048 then [192 + n / 64, 128 + n % 64]
  else if n < 65536 then [224 + n / 4096, 128 + n / 64 % 64, 128 + n % 64]
  else [240 + n / 262144, 128 + n / 4096 % 64, 128 + n / 64 % 64, 128 + n % 64]

/-- The bytes of a string literal (without the terminating NUL). -/
def bytes (s : String) : List Nat := s.data.flatMap utf8_char

/-- Decimal digits of `n` (ASCII, most significant first) put in front of `acc`;
`fuel` bounds the number of digits. -/
def digits_aux : Nat → Nat → List Nat → List Nat
  | 0, _, acc => acc
  | fuel + 1, n, acc =>
    if n < 10 then (48 + n) :: acc
    else digits_aux fuel (n / 10) ((48 + n % 10) :: acc)

/-- Decimal representation of a natural number. -/
def fmt_nat (n : Nat) : List Nat := digits_aux (n + 1) n []

/-- The `%d` conversion of `printf`: an optional minus sign, then the digits. -/
def fmt_d (x : Int) : List Nat :=
  if x < 0 then 45 :: fmt_nat x.natAbs else fmt_nat x.natAbs

/-- The number that a sequence of ASCII decimal digits writes. -/
def decimal_value (ds : List Nat) : Nat := ds.foldl (fun acc d => 10 * acc + (d - 48)) 0

/-- Content of a buffer of `size` bytes after `snprintf (buf, size, ...)`, where
`formatted` is the complete formatted text: at most `size - 1` bytes of it,
then a NUL. -/
def snprintf (size : Nat) (formatted : List Nat) : List Nat :=
  formatted.take (size - 1) ++ [0]

/-- The C string held by a buffer: the bytes before the first NUL, that is
the first `strlen (buf)` bytes. -/
def c_string (buf : List Nat) : List Nat := buf.takeWhile (fun b => b ≠ 0)

/-- Whether `needle` occurs in `hay` as a contiguous block; `strstr (hay, needle)`
is non-null exactly then. -/
def strstr (hay needle : List Nat) : Bool :=
  match hay with
  | [] => needle.isEmpty
  | b :: rest => needle.isPrefixOf (b :: rest) || strstr rest needle

/-! ## The server (server.c) -/

/-- Maximum number of turns per player (`#define MAX_TURNS 3`). -/
def MAX_TURNS : Nat := 3

/-- What the server does on its two player sockets, in program order.  A socket
is named by its index in `player_sockets`. -/
inductive Event where
  /-- The call `send (player_sockets[sock], data, strlen (data), 0)`. -/
  | send (sock : Nat) (data : List Nat)
  /-- The call `read (player_sockets[sock], &guess, sizeof (guess))`, after which
  the variable `guess` holds the given value. -/
  | read (sock : Nat) (guess : Int)
  /-- The call `close (player_sockets[sock])`. -/
  | close (sock : Nat)
  deriving DecidableEq, Repr

/-- An array of two elements, indexed by 0 and 1. -/
structure Arr2 (α : Type) where
  a0 : α
  a1 : α
  deriving DecidableEq, Repr

/-- The element `a[i]`. -/
def Arr2.get {α : Type} (a : Arr2 α) (i : Nat) : α := if i = 0 then a.a0 else a.a1

/-- The array after `a[i] = v`. -/
def Arr2.set {α : Type} (a : Arr2 α) (i : Nat) (v : α) : Arr2 α :=
  if i = 0 then { a with a0 := v } else { a with a1 := v }

/-- The globals of server.c that `handle_game` reads and writes, together with
the state of the outside world: how many guesses have been read from each
socket, and the calls made so far on the sockets. -/
structure Server where
  /-- The global `int player_scores[2]`. -/
  player_scores : Arr2 Int
  /-- The global `int winner`. -/
  winner : Int
  /-- Number of `read` calls made so far on each player socket. -/
  nread : Arr2 Nat
  /-- The calls made so far on the player sockets, oldest first. -/
  trace : List Event
  deriving DecidableEq, Repr

/-- The globals as initialised at program start: `player_scores = {0, 0}` and
`winner = -1`; nothing has been read or sent by `handle_game` yet. -/
def Server.init : Server :=
  { player_scores := ⟨0, 0⟩, winner := -1, nread := ⟨0, 0⟩, trace := [] }

/-- The turn prompt, `char prompt[] = "Your turn to guess: "`. -/
def prompt : List Nat := bytes "Your turn to guess: " ++ [0]

/-- The buffer `feedback` after the `snprintf` of lines 105-107. -/
def feedback (guess score total : Int) : List Nat :=
  snprintf 100 (bytes "You guessed " ++ fmt_d guess ++ bytes ". Score this turn: " ++
    fmt_d score ++ bytes ". Total: " ++ fmt_d total ++ bytes "\n")

/-- The buffer `scorecard` after the `snprintf` of lines 64-69. -/
def scorecard (score0 score1 : Int) : List Nat :=
  snprintf 256 (bytes "\n========= SCORECARD =========\nPlayer 1: " ++ fmt_d score0 ++
    bytes "\nPlayer 2: " ++ fmt_d score1 ++ bytes "\n=============================\n\n")

/-- Embedding of `void send_scorecard()`: the scorecard is formatted once from the two
totals and sent to socket 0, then to socket 1. -/
def send_scorecard (s : Server) : Server :=
  let card := scorecard (s.player_scores.get 0) (s.player_scores.get 1)
  { s with trace := s.trace ++ (List.range 2).map (fun i => Event.send i (c_string card)) }

/-- The body of the inner loop of `handle_game` (lines 91-110), for player `i`.
`input i j` is the value the variable `guess` holds after the `j`-th `read`
on the socket of player `i` (counted from 0). -/
def turn_body (number_to_guess : Int) (input : Nat → Nat → Int) (i : Nat) (s : Server) :
    Server :=
  let guess := input i (s.nread.get i)
  let score := calculate_score guess number_to_guess
  let total := wrap32 (s.player_scores.get i + score)
  send_scorecard
    { player_scores := s.player_scores.set i total
      winner := if score = 100 then (i : Int) else s.winner
      nread := s.nread.set i (s.nread.get i + 1)
      trace := s.trace ++ [Event.send i (c_string prompt), Event.read i guess,
        Event.send i (c_string (feedback guess score total))] }

/-- The inner loop `for (int i = 0; i < 2 && winner == -1; i++)`, by recursion on
the number `2 - i` of index values left. -/
def player_loop (number_to_guess : Int) (input : Nat → Nat → Int) : Nat → Server → Server
  | 0, s => s
  | left + 1, s =>
    if s.winner = -1 then
      player_loop number_to_guess input left (turn_body number_to_guess input (2 - (left + 1)) s)
    else s

/-- The outer loop `for (int turn = 0; turn < MAX_TURNS && winner == -1; turn++)`, by
recursion on the number `MAX_TURNS - turn` of rounds left. -/
def turn_loop (number_to_guess : Int) (input : Nat → Nat → Int) : Nat → Server → Server
  | 0, s => s
  | left + 1, s =>
    if s.winner = -1 then
      turn_loop number_to_guess input left (player_loop number_to_guess input 2 s)
    else s

/-- The buffer `end_msg` when a player guessed the number (lines 116-118);
`seat` is `winner + 1`. -/
def end_msg_exact (seat : Int) : List Nat :=
  snprintf 256 (bytes "\nGame Over 🏁. Player " ++ fmt_d seat ++
    bytes " guessed the correct number and wins with 100 points! 🏆\n")

/-- The buffer `end_msg` when player 1 (index 0) wins by score (lines 121-123). -/
def end_msg_score1 (score : Int) : List Nat :=
  snprintf 256 (bytes "\nGame Over 🏁. No one guessed the correct number 😿.\nBut Player 1 wins by score: " ++
    fmt_d score ++ bytes " 🏆\n")

/-- The buffer `end_msg` when player 2 (index 1) wins by score (lines 125-127). -/
def end_msg_score2 (score : Int) : List Nat :=
  snprintf 256 (bytes "\nGame Over 🏁. No one guessed the correct number 😿.\nBut Player 2 wins by score: " ++
    fmt_d score ++ bytes " 🏆\n")

/-- The buffer `end_msg` for a draw (lines 129-131). -/
def end_msg_draw (score : Int) : List Nat :=
  snprintf 256 (bytes "\nGame Over 🏁. It's a draw! Both players scored " ++ fmt_d score ++
    bytes " 🤝\n")

/-- The buffer `end_msg` chosen by lines 114-133 from the globals. -/
def end_msg (s : Server) : List Nat :=
  if s.winner ≠ -1 then end_msg_exact (wrap32 (s.winner + 1))
  else if s.player_scores.get 0 > s.player_scores.get 1 then
    end_msg_score1 (s.player_scores.get 0)
  else if s.player_scores.get 1 > s.player_scores.get 0 then
    end_msg_score2 (s.player_scores.get 1)
  else end_msg_draw (s.player_scores.get 0)

/-- Lines 114-138: the end message is sent to each player, whose socket is then
closed. -/
def finish (s : Server) : Server :=
  let msg := end_msg s
  { s with trace := s.trace ++
      (List.range 2).flatMap (fun i => [Event.send i (c_string msg), Event.close i]) }

/-- Embedding of `void* handle_game(void* arg)`, run from the initial globals as
`main` does, with `number_to_guess` the secret. -/
def handle_game (number_to_guess : Int) (input : Nat → Nat → Int) : Server :=
  finish (turn_loop number_to_guess input MAX_TURNS Server.init)

/-! ## The client (client.c, lines 62-86) -/

/-- Size of the receive buffer, `char buffer[1024]`. -/
def BUFFER_SIZE : Nat := 1024

/-- What the client does in one iteration of its loop, after the `read`. -/
inductive ClientEvent where
  /-- A call of `printf` writing the given bytes to the operator. -/
  | print (text : List Nat)
  /-- The call `scanf ("%d", &guess)`, after which `guess` holds the given value. -/
  | scan (guess : Int)
  /-- The call `send (sock, &guess, sizeof (guess), 0)`. -/
  | send (guess : Int)
  deriving DecidableEq, Repr

/-- The buffer after `memset (buffer, 0, sizeof (buffer))` and a `read` that
returned `valread > 0` and stored the first `valread` bytes of `data`: those
bytes, then zeros up to the size of the buffer. -/
def buffer_after_read (valread : Int) (data : List Nat) : List Nat :=
  let got := data.take (min valread.toNat BUFFER_SIZE)
  got ++ List.replicate (BUFFER_SIZE - got.length) 0

/-- The C string that `printf ("%s", buf)` and `strstr (buf, ...)` read from an
array: defined only if the array holds a NUL; without one the calls read past
the end of the array, which is undefined behaviour. -/
def array_string (buf : List Nat) : Option (List Nat) :=
  if 0 ∈ buf then some (c_string buf) else none

/-- One iteration of the `while (1)` loop of the client.  `valread` and `data`
describe the result of the `read`, `guess` is what `scanf` stores if it is
called.  The result is the list of calls made and whether the loop is left
(`break`); `none` stands for undefined behaviour. -/
def client_iteration (valread : Int) (data : List Nat) (guess : Int) :
    Option (List ClientEvent × Bool) :=
  if valread ≤ 0 then some ([], true)
  else
    match array_string (buffer_after_read valread data) with
    | none => none
    | some text =>
      let shown := [ClientEvent.print text]
      let turn :=
        if strstr text (bytes "Your turn to guess") then
          [ClientEvent.print (bytes "Enter your guess 🫣: "), ClientEvent.scan guess,
            ClientEvent.send guess]
        else []
      some (shown ++ turn, strstr text (bytes "Game Over"))

/-- The guesses written on the connection among the calls of the client. -/
def guesses_sent (evs : List ClientEvent) : List Int :=
  evs.filterMap (fun e => match e with
    | ClientEvent.send g => some g
    | _ => none)

/-! ## Notions used in the statements about `handle_game` -/

/-- Sum of the scores of the first `m` guesses of player `i`. -/
def player_total (secret : Int) (input : Nat → Nat → Int) (i m : Nat) : Int :=
  ((List.range m).map (fun j => calculate_score (input i j) secret)).sum

/-- The guess of turn `t` (turns counted from 0) when the players alternate
starting with player 0: guess number `t / 2` of player `t % 2`. -/
def guess_at (input : Nat → Nat → Int) (t : Nat) : Int := input (t % 2) (t / 2)

/-- The two totals after `t` alternating turns: player 0 has made `(t + 1) / 2`
guesses and player 1 has made `t / 2`. -/
def totals_after (secret : Int) (input : Nat → Nat → Int) (t : Nat) : Arr2 Int :=
  ⟨player_total secret input 0 ((t + 1) / 2), player_total secret input 1 (t / 2)⟩

/-- The calls of turn `t`: prompt to player `t % 2`, read of that player's guess,
feedback to that player, then the scorecard with the totals after the turn to
player 0 and to player 1. -/
def turn_events (secret : Int) (input : Nat → Nat → Int) (t : Nat) : List Event :=
  let score := calculate_score (guess_at input t) secret
  let totals := totals_after secret input (t + 1)
  [Event.send (t % 2) (c_string prompt),
   Event.read (t % 2) (guess_at input t),
   Event.send (t % 2) (c_string (feedback (guess_at input t) score (totals.get (t % 2)))),
   Event.send 0 (c_string (scorecard totals.a0 totals.a1)),
   Event.send 1 (c_string (scorecard totals.a0 totals.a1))]

/-- The calls of the first `n` turns. -/
def game_events (secret : Int) (input : Nat → Nat → Int) : Nat → List Event
  | 0 => []
  | n + 1 => game_events secret input n ++ turn_events secret input n

/-- The number of turns played when `left` more turns are allowed after turn
`t`: the play stops after the first turn that scores 100. -/
def stop_turn (secret : Int) (input : Nat → Nat → Int) : Nat → Nat → Nat
  | 0, t => t
  | left + 1, t =>
    if calculate_score (guess_at input t) secret = 100 then t + 1
    else stop_turn secret input left (t + 1)

/-- The number of turns of a game: at most `2 * MAX_TURNS`. -/
def turns_played (secret : Int) (input : Nat → Nat → Int) : Nat :=
  stop_turn secret input (2 * MAX_TURNS) 0

/-- The value of `winner` after `t` turns of which only the last one may have
scored 100. -/
def winner_after (secret : Int) (input : Nat → Nat → Int) : Nat → Int
  | 0 => -1
  | t + 1 => if calculate_score (guess_at input t) secret = 100 then ((t % 2 : Nat) : Int) else -1

/-- The state of the server after `t` turns of which only the last one may have
scored 100. -/
def state_after (secret : Int) (input : Nat → Nat → Int) (t : Nat) : Server :=
  { player_scores := totals_after secret input t
    winner := winner_after secret input t
    nread := ⟨(t + 1) / 2, t / 2⟩
    trace := game_events secret input t }

/-- The messages sent to player `p` among the calls of a trace, oldest first. -/
def sent_to (p : Nat) (tr : List Event) : List (List Nat) :=
  tr.filterMap (fun e => match e with
    | Event.send i d => if i = p then some d else none
    | _ => none)

/-- The players from whose sockets a guess was read, in the order of the reads. -/
def readers (tr : List Event) : List Nat :=
  tr.filterMap (fun e => match e with
    | Event.read i _ => some i
    | _ => none)

/-- The players to whom the turn prompt was sent, in the order of the sends. -/
def prompts_sent (tr : List Event) : List Nat :=
  tr.filterMap (fun e => match e with
    | Event.send i d => if d = c_string prompt then some i else none
    | _ => none)

/-- The sends of the turn prompt and the reads among the calls of a trace. -/
def prompts_and_reads (tr : List Event) : List Event :=
  tr.filter (fun e => match e with
    | Event.send _ d => decide (d = c_string prompt)
    | Event.read _ _ => true
    | Event.close _ => false)

/-- The calls with which `handle_game` ends: the end message to each player,
each followed by the close of that player's socket. -/
def final_events (msg : List Nat) : List Event :=
  [Event.send 0 (c_string msg), Event.close 0, Event.send 1 (c_string msg), Event.close 1]

/-- The scorecard as text showing the totals `score0` and `score1`: the format of
`send_scorecard` with the two numbers written out in decimal. -/
def scorecard_text (score0 score1 : Int) : List Nat :=
  bytes "\n========= SCORECARD =========\nPlayer 1: " ++ fmt_d score0 ++
    bytes "\nPlayer 2: " ++ fmt_d score1 ++ bytes "\n=============================\n\n"

/-- The guesses read from player `i` among the calls of a trace, oldest first. -/
def guesses_read (i : Nat) (tr : List Event) : List Int :=
  tr.filterMap (fun e => match e with
    | Event.read j g => if j = i then some g else none
    | _ => none)

/-- Sum of the scores of a list of guesses. -/
def score_sum (secret : Int) (guesses : List Int) : Int :=
  (guesses.map (fun g => calculate_score g secret)).sum

/-- Guesses of an example game: player 0 always guesses 45, player 1 guesses
200, 200 and then 50. -/
def example_input : Nat → Nat → Int :=
  fun i j => if i = 0 then 45 else if j < 2 then 200 else 50

/-- Guesses of a second example game, without an exact guess: player 0 always
guesses 45 and player 1 always guesses 200. -/
def example_input_by_score : Nat → Nat → Int :=
  fun i _ => if i = 0 then 45 else 200

/-! ## Arithmetic facts -/

theorem wrap32_of_inRange {x : Int} (h : InRange x) : wrap32 x = x := by
  unfold InRange INT_MIN INT_MAX at h
  unfold wrap32
  omega

theorem wrap32_inRange (x : Int) : InRange (wrap32 x) := by
  unfold InRange INT_MIN INT_MAX wrap32
  omega

/-- The code applies the table to `abs (guess - actual)` as the machine computes it. -/
theorem calculate_score_eq (g s : Int) :
    calculate_score g s = score_table (c_abs (wrap32 (g - s))) := rfl

/-- The bands of the table. -/
theorem score_table_cases (d : Int) :
    (d = 0 ∧ score_table d = 100) ∨ (d ≠ 0 ∧ d ≤ 10 ∧ score_table d = 50) ∨
    (10 < d ∧ d ≤ 20 ∧ score_table d = 45) ∨ (20 < d ∧ d ≤ 30 ∧ score_table d = 40) ∨
    (30 < d ∧ d ≤ 40 ∧ score_table d = 35) ∨ (40 < d ∧ d ≤ 50 ∧ score_table d = 30) ∨
    (50 < d ∧ d ≤ 60 ∧ score_table d = 25) ∨ (60 < d ∧ d ≤ 70 ∧ score_table d = 20) ∨
    (70 < d ∧ d ≤ 80 ∧ score_table d = 15) ∨ (80 < d ∧ d ≤ 90 ∧ score_table d = 10) ∨
    (90 < d ∧ score_table d = 5) := by
  unfold score_table
  by_cases h0 : d = 0
  · exact Or.inl ⟨h0, if_pos h0⟩
  rw [if_neg h0]
  by_cases h1 : d ≤ 10
  · exact Or.inr (Or.inl ⟨h0, h1, if_pos h1⟩)
  rw [if_neg h1]
  by_cases h2 : d ≤ 20
  · exact Or.inr (Or.inr (Or.inl ⟨not_le.mp h1, h2, if_pos h2⟩))
  rw [if_neg h2]
  by_cases h3 : d ≤ 30
  · exact Or.inr (Or.inr (Or.inr (Or.inl ⟨not_le.mp h2, h3, if_pos h3⟩)))
  rw [if_neg h3]
  by_cases h4 : d ≤ 40
  · exact Or.inr (Or.inr (Or.inr (Or.inr (Or.inl ⟨not_le.mp h3, h4, if_pos h4⟩))))
  rw [if_neg h4]
  by_cases h5 : d ≤ 50
  · exact Or.inr (Or.inr (Or.inr (Or.inr (Or.inr (Or.inl ⟨not_le.mp h4, h5, if_pos h5⟩)))))
  rw [if_neg h5]
  by_cases h6 : d ≤ 60
  · exact Or.inr (Or.inr (Or.inr (Or.inr (Or.inr (Or.inr
      (Or.inl ⟨not_le.mp h5, h6, if_pos h6⟩))))))
  rw [if_neg h6]
  by_cases h7 : d ≤ 70
  · exact Or.inr (Or.inr (Or.inr (Or.inr (Or.inr (Or.inr (Or.inr
      (Or.inl ⟨not_le.mp h6, h7, if_pos h7⟩)))))))
  rw [if_neg h7]
  by_cases h8 : d ≤ 80
  · exact Or.inr (Or.inr (Or.inr (Or.inr (Or.inr (Or.inr (Or.inr (Or.inr
      (Or.inl ⟨not_le.mp h7, h8, if_pos h8⟩))))))))
  rw [if_neg h8]
  by_cases h9 : d ≤ 90
  · exact Or.inr (Or.inr (Or.inr (Or.inr (Or.inr (Or.inr (Or.inr (Or.inr (Or.inr
      (Or.inl ⟨not_le.mp h8, h9, if_pos h9⟩)))))))))
  rw [if_neg h9]
  exact Or.inr (Or.inr (Or.inr (Or.inr (Or.inr (Or.inr (Or.inr (Or.inr (Or.inr
      (Or.inr ⟨not_le.mp h9, rfl⟩)))))))))

theorem score_table_bounds (d : Int) : 5 ≤ score_table d ∧ score_table d ≤ 100 := by
  rcases score_table_cases d with h | h | h | h | h | h | h | h | h | h | h <;> omega

theorem score_table_eq_100 (d : Int) : score_table d = 100 ↔ d = 0 := by
  rcases score_table_cases d with h | h | h | h | h | h | h | h | h | h | h <;> omega

/-- On distances the table is non-increasing. -/
theorem score_table_antitone {a b : Int} (h : a ≤ b) (ha : 0 ≤ a) :
    score_table b ≤ score_table a := by
  rcases score_table_cases a with h1 | h1 | h1 | h1 | h1 | h1 | h1 | h1 | h1 | h1 | h1 <;>
  rcases score_table_cases b with h2 | h2 | h2 | h2 | h2 | h2 | h2 | h2 | h2 | h2 | h2 <;>
  omega

/-- Every score is in `5 .. 100`, whatever the arguments. -/
theorem calculate_score_bounds (g s : Int) :
    5 ≤ calculate_score g s ∧ calculate_score g s ≤ 100 :=
  score_table_bounds _

/-- When the distance fits an `int`, `abs (guess - actual)` is the distance. -/
theorem c_abs_sub_of_small {g s : Int} (h : |g - s| ≤ INT_MAX) :
    c_abs (wrap32 (g - s)) = |g - s| := by
  unfold INT_MAX at h
  have h1 := abs_le.mp h
  have hw : wrap32 (g - s) = g - s := by unfold wrap32; omega
  rw [hw]
  unfold c_abs
  split_ifs with hlt
  · rw [abs_of_neg hlt]; unfold wrap32; omega
  · rw [abs_of_nonneg (not_lt.mp hlt)]; unfold wrap32; omega

/-- Where the distance fits an `int`, the code computes the table of the
specification on the distance. -/
theorem calculate_score_eq_table {g s : Int} (h : |g - s| ≤ INT_MAX) :
    calculate_score g s = score_table |g - s| := by
  rw [calculate_score_eq, c_abs_sub_of_small h]

/-- Where both distances fit an `int`, a smaller distance never scores less. -/
theorem calculate_score_antitone_of_small {g1 s1 g2 s2 : Int} (h1 : |g1 - s1| ≤ INT_MAX)
    (h2 : |g2 - s2| ≤ INT_MAX) (h : |g1 - s1| ≤ |g2 - s2|) :
    calculate_score g2 s2 ≤ calculate_score g1 s1 := by
  rw [calculate_score_eq_table h1, calculate_score_eq_table h2]
  exact score_table_antitone h (abs_nonneg _)

/-- The machine value of `abs (g - s)` is zero only for `g = s`. -/
theorem c_abs_sub_eq_zero {g s : Int} (hg : InRange g) (hs : InRange s) :
    c_abs (wrap32 (g - s)) = 0 ↔ g = s := by
  unfold InRange INT_MIN INT_MAX at hg hs
  unfold c_abs wrap32
  split_ifs <;> omega

/-- The score is 100 exactly for an exact guess. -/
theorem calculate_score_eq_100 {g s : Int} (hg : InRange g) (hs : InRange s) :
    calculate_score g s = 100 ↔ g = s := by
  rw [calculate_score_eq, score_table_eq_100, c_abs_sub_eq_zero hg hs]

/-! ## The game loop -/

theorem player_total_succ (secret : Int) (input : Nat → Nat → Int) (i m : Nat) :
    player_total secret input i (m + 1) =
      player_total secret input i m + calculate_score (input i m) secret := by
  simp [player_total, List.range_succ]

/-- A total of `m` guesses is between `5 * m` and `100 * m`. -/
theorem player_total_bounds (secret : Int) (input : Nat → Nat → Int) (i m : Nat) :
    5 * (m : Int) ≤ player_total secret input i m ∧
      player_total secret input i m ≤ 100 * (m : Int) := by
  induction m with
  | zero => simp [player_total]
  | succ m ih =>
    rw [player_total_succ]
    have hb := calculate_score_bounds (input i m) secret
    push_cast
    omega

theorem winner_after_succ (secret : Int) (input : Nat → Nat → Int) (t : Nat) :
    winner_after secret input (t + 1) =
      if calculate_score (guess_at input t) secret = 100 then ((t % 2 : Nat) : Int) else -1 :=
  rfl

/-- One execution of the loop body takes the state after `t` turns to the state
after `t + 1` turns. -/
theorem turn_body_state_after (secret : Int) (input : Nat → Nat → Int) (t : Nat)
    (ht : t < 1000) (hw : winner_after secret input t = -1) :
    turn_body secret input (t % 2) (state_after secret input t) =
      state_after secret input (t + 1) := by
  have hb0 := player_total_bounds secret input 0 (t / 2)
  have hb1 := player_total_bounds secret input 1 (t / 2)
  have hs0 := calculate_score_bounds (input 0 (t / 2)) secret
  have hs1 := calculate_score_bounds (input 1 (t / 2)) secret
  rcases Nat.mod_two_eq_zero_or_one t with h | h
  · have e1 : (t + 1) / 2 = t / 2 := by omega
    have e2 : (t + 1 + 1) / 2 = t / 2 + 1 := by omega
    have e3 : wrap32 (player_total secret input 0 (t / 2) +
        calculate_score (input 0 (t / 2)) secret) =
        player_total secret input 0 (t / 2) + calculate_score (input 0 (t / 2)) secret := by
      apply wrap32_of_inRange
      unfold InRange INT_MIN INT_MAX
      omega
    simp [turn_body, send_scorecard, state_after, totals_after, winner_after_succ, turn_events,
      game_events, guess_at, Arr2.get, Arr2.set, h, e1, e2, e3, hw, player_total_succ,
      List.range_succ]
  · have e1 : (t + 1) / 2 = t / 2 + 1 := by omega
    have e2 : (t + 1 + 1) / 2 = t / 2 + 1 := by omega
    have e3 : wrap32 (player_total secret input 1 (t / 2) +
        calculate_score (input 1 (t / 2)) secret) =
        player_total secret input 1 (t / 2) + calculate_score (input 1 (t / 2)) secret := by
      apply wrap32_of_inRange
      unfold InRange INT_MIN INT_MAX
      omega
    simp [turn_body, send_scorecard, state_after, totals_after, winner_after_succ, turn_events,
      game_events, guess_at, Arr2.get, Arr2.set, h, e1, e2, e3, hw, player_total_succ,
      List.range_succ]

theorem winner_after_succ_eq (secret : Int) (input : Nat → Nat → Int) (t : Nat) :
    winner_after secret input (t + 1) = -1 ↔ calculate_score (guess_at input t) secret ≠ 100 := by
  rw [winner_after_succ]
  split_ifs with h
  · simp only [h, ne_eq, not_true_eq_false, iff_false]
  · simp [h]

/-- Once a winner is recorded the outer loop does nothing more. -/
theorem turn_loop_of_winner (secret : Int) (input : Nat → Nat → Int) (left : Nat) (s : Server)
    (h : s.winner ≠ -1) : turn_loop secret input left s = s := by
  cases left with
  | zero => rfl
  | succ n => simp [turn_loop, h]

/-- One round: from an even turn number, the inner loop plays one turn if the
first player scores 100 and two turns otherwise. -/
theorem player_loop_state_after (secret : Int) (input : Nat → Nat → Int) (q : Nat)
    (hq : q < 400) (hw : winner_after secret input (2 * q) = -1) :
    player_loop secret input 2 (state_after secret input (2 * q)) =
      state_after secret input
        (if calculate_score (guess_at input (2 * q)) secret = 100 then 2 * q + 1
          else 2 * q + 2) := by
  have h0 : (2 * q) % 2 = 0 := by omega
  have h1 : (2 * q + 1) % 2 = 1 := by omega
  have b0 := turn_body_state_after secret input (2 * q) (by omega) hw
  rw [h0] at b0
  have hs : (state_after secret input (2 * q)).winner = -1 := hw
  by_cases hit : calculate_score (guess_at input (2 * q)) secret = 100
  · have hw1 : ¬ (state_after secret input (2 * q + 1)).winner = -1 := by
      show ¬ winner_after secret input (2 * q + 1) = -1
      rw [winner_after_succ_eq]
      exact not_not.mpr hit
    simp only [player_loop, hs, if_true, Nat.sub_self, b0, hw1, if_false, hit]
  · have hw1 : winner_after secret input (2 * q + 1) = -1 :=
      (winner_after_succ_eq secret input (2 * q)).mpr hit
    have b1 := turn_body_state_after secret input (2 * q + 1) (by omega) hw1
    rw [h1] at b1
    have hs1 : (state_after secret input (2 * q + 1)).winner = -1 := hw1
    simp only [player_loop, hs, if_true, Nat.sub_self, b0, hs1, hit, if_false]
    exact b1

theorem stop_turn_succ (secret : Int) (input : Nat → Nat → Int) (left t : Nat) :
    stop_turn secret input (left + 1) t =
      if calculate_score (guess_at input t) secret = 100 then t + 1
      else stop_turn secret input left (t + 1) := rfl

/-- The outer loop, started at the beginning of a round, stops where `stop_turn`
says. -/
theorem turn_loop_state_after (secret : Int) (input : Nat → Nat → Int) :
    ∀ (left q : Nat), q + left < 400 → winner_after secret input (2 * q) = -1 →
      turn_loop secret input left (state_after secret input (2 * q)) =
        state_after secret input (stop_turn secret input (2 * left) (2 * q)) := by
  intro left
  induction left with
  | zero => intro q _ _; rfl
  | succ n ih =>
    intro q hq hw
    have hs : (state_after secret input (2 * q)).winner = -1 := hw
    have e : 2 * (n + 1) = 2 * n + 1 + 1 := by ring
    rw [turn_loop, if_pos hs, player_loop_state_after secret input q (by omega) hw, e,
      stop_turn_succ]
    by_cases hit : calculate_score (guess_at input (2 * q)) secret = 100
    · rw [if_pos hit, if_pos hit]
      apply turn_loop_of_winner
      show ¬ winner_after secret input (2 * q + 1) = -1
      rw [winner_after_succ_eq]
      exact not_not.mpr hit
    · rw [if_neg hit, if_neg hit, stop_turn_succ]
      by_cases hit1 : calculate_score (guess_at input (2 * q + 1)) secret = 100
      · rw [if_pos hit1]
        apply turn_loop_of_winner
        show ¬ winner_after secret input (2 * q + 1 + 1) = -1
        rw [winner_after_succ_eq]
        exact not_not.mpr hit1
      · rw [if_neg hit1]
        have hw2 : winner_after secret input (2 * (q + 1)) = -1 :=
          (winner_after_succ_eq secret input (2 * q + 1)).mpr hit1
        exact ih (q + 1) (by omega) hw2

/-- The state in which the loops of `handle_game` end. -/
theorem turn_loop_init (secret : Int) (input : Nat → Nat → Int) :
    turn_loop secret input MAX_TURNS Server.init =
      state_after secret input (turns_played secret input) := by
  have h := turn_loop_state_after secret input MAX_TURNS 0 (by decide) rfl
  exact h

/-- The trace of `handle_game`: the calls of the turns played, then the end
message and the close for each player. -/
theorem handle_game_trace (secret : Int) (input : Nat → Nat → Int) :
    (handle_game secret input).trace =
      game_events secret input (turns_played secret input) ++
        final_events (end_msg (state_after secret input (turns_played secret input))) := by
  unfold handle_game
  rw [turn_loop_init]
  rfl

/-! ## Text -/

theorem digits_aux_bytes (fuel : Nat) : ∀ (n : Nat) (acc : List Nat),
    (∀ b ∈ acc, 48 ≤ b ∧ b ≤ 57) → ∀ b ∈ digits_aux fuel n acc, 48 ≤ b ∧ b ≤ 57 := by
  induction fuel with
  | zero => intro n acc h; exact h
  | succ k ih =>
    intro n acc h b hb
    rw [digits_aux] at hb
    split_ifs at hb with hn
    · rcases List.mem_cons.mp hb with rfl | hb
      · omega
      · exact h b hb
    · refine ih (n / 10) _ ?_ b hb
      intro c hc
      rcases List.mem_cons.mp hc with rfl | hc
      · omega
      · exact h c hc

/-- The `%d` conversion writes only a minus sign and decimal digits. -/
theorem fmt_d_bytes (x : Int) : ∀ b ∈ fmt_d x, b = 45 ∨ (48 ≤ b ∧ b ≤ 57) := by
  intro b hb
  unfold fmt_d at hb
  have key : ∀ b ∈ fmt_nat x.natAbs, 48 ≤ b ∧ b ≤ 57 :=
    digits_aux_bytes _ _ [] (by simp)
  split_ifs at hb
  · rcases List.mem_cons.mp hb with rfl | hb
    · exact Or.inl rfl
    · exact Or.inr (key b hb)
  · exact Or.inr (key b hb)

/-- The bytes that are sent from a buffer filled by `snprintf` are bytes of the
formatted text. -/
theorem mem_c_string_snprintf {size : Nat} {formatted : List Nat} {b : Nat}
    (h : b ∈ c_string (snprintf size formatted)) : b ∈ formatted := by
  unfold c_string at h
  have h0 : b ≠ 0 := by simpa using List.mem_takeWhile_imp h
  have h1 : b ∈ snprintf size formatted := (List.takeWhile_sublist _).subset h
  unfold snprintf at h1
  rcases List.mem_append.mp h1 with h2 | h2
  · exact List.mem_of_mem_take h2
  · simp at h2; exact absurd h2 h0

/-- A text without NUL that leads the formatted text and fits the buffer leads
what is sent. -/
theorem c_string_snprintf_append (size : Nat) (a rest : List Nat) (ha : ∀ b ∈ a, b ≠ 0)
    (hl : a.length < size) :
    c_string (snprintf size (a ++ rest)) = a ++ c_string (snprintf (size - a.length) rest) := by
  unfold c_string snprintf
  have e : (size - 1) - a.length = size - a.length - 1 := by omega
  rw [List.take_append_eq_append_take, List.take_of_length_le (by omega), List.append_assoc,
    List.takeWhile_append_of_pos (by simpa using ha), e]

/-- The function `strstr` finds `needle` exactly when it is a contiguous block
of `hay`. -/
theorem strstr_iff (hay needle : List Nat) : strstr hay needle = true ↔ needle <:+: hay := by
  induction hay with
  | nil =>
    cases needle with
    | nil => simp [strstr]
    | cons a l => simp [strstr]
  | cons b rest ih =>
    rw [strstr, Bool.or_eq_true, ih, List.isPrefixOf_iff_prefix, List.infix_cons_iff]

theorem strstr_mem {hay needle : List Nat} (h : strstr hay needle = true) :
    ∀ b ∈ needle, b ∈ hay := by
  intro b hb
  exact ((strstr_iff hay needle).mp h).subset hb

theorem strstr_append_right {a needle : List Nat} (rest : List Nat)
    (h : strstr a needle = true) : strstr (a ++ rest) needle = true := by
  rw [strstr_iff] at h ⊢
  obtain ⟨s, t, hst⟩ := h
  exact ⟨s, t ++ rest, by rw [← hst]; simp⟩

/-! ## The calls of the turns -/

theorem turn_events_length (secret : Int) (input : Nat → Nat → Int) (t : Nat) :
    (turn_events secret input t).length = 5 := rfl

theorem game_events_length (secret : Int) (input : Nat → Nat → Int) (n : Nat) :
    (game_events secret input n).length = 5 * n := by
  induction n with
  | zero => rfl
  | succ n ih => rw [game_events, List.length_append, ih, turn_events_length]; ring

/-- The calls of the first `m` turns lead the calls of the first `n ≥ m` turns. -/
theorem game_events_take (secret : Int) (input : Nat → Nat → Int) (m n : Nat) (h : m ≤ n) :
    (game_events secret input n).take (5 * m) = game_events secret input m := by
  induction n with
  | zero =>
    have : m = 0 := by omega
    subst this
    rfl
  | succ n ih =>
    rcases Nat.lt_or_ge m (n + 1) with hlt | hge
    · rw [game_events, List.take_append_of_le_length
        (by rw [game_events_length]; omega)]
      exact ih (by omega)
    · have : m = n + 1 := by omega
      subst this
      rw [← game_events_length secret input (n + 1), List.take_length]

theorem game_events_eq_flatMap (secret : Int) (input : Nat → Nat → Int) (n : Nat) :
    game_events secret input n = (List.range n).flatMap (turn_events secret input) := by
  induction n with
  | zero => rfl
  | succ n ih => rw [game_events, ih, List.range_succ, List.flatMap_append]; simp

theorem guesses_read_turn_events (secret : Int) (input : Nat → Nat → Int) (i t : Nat) :
    guesses_read i (turn_events secret input t) =
      if t % 2 = i then [guess_at input t] else [] := by
  simp only [guesses_read, turn_events, List.filterMap_cons, List.filterMap_nil]
  split_ifs <;> rfl

/-- The guesses read from a player in the first `n` turns are the first guesses of
that player's stream: `(n + 1) / 2` of them for player 0, `n / 2` for player 1. -/
theorem guesses_read_game_events (secret : Int) (input : Nat → Nat → Int) (n : Nat) :
    guesses_read 0 (game_events secret input n) = (List.range ((n + 1) / 2)).map (input 0) ∧
      guesses_read 1 (game_events secret input n) = (List.range (n / 2)).map (input 1) := by
  induction n with
  | zero => exact ⟨rfl, rfl⟩
  | succ n ih =>
    have hap : ∀ i, guesses_read i (game_events secret input (n + 1)) =
        guesses_read i (game_events secret input n) ++
          guesses_read i (turn_events secret input n) := by
      intro i
      rw [game_events]
      exact List.filterMap_append _ _ _
    rw [hap 0, hap 1, ih.1, ih.2, guesses_read_turn_events, guesses_read_turn_events]
    rcases Nat.mod_two_eq_zero_or_one n with h | h
    · have e1 : (n + 1 + 1) / 2 = (n + 1) / 2 + 1 := by omega
      have e2 : (n + 1) / 2 = n / 2 := by omega
      simp [h, e1, e2, List.range_succ, guess_at]
    · have e1 : (n + 1 + 1) / 2 = (n + 1) / 2 := by omega
      have e2 : (n + 1) / 2 = n / 2 + 1 := by omega
      simp [h, e1, e2, List.range_succ, guess_at]

/-- The sums of the scores of the guesses read in the first `n` turns are the
totals after `n` turns. -/
theorem score_sum_game_events (secret : Int) (input : Nat → Nat → Int) (n : Nat) :
    score_sum secret (guesses_read 0 (game_events secret input n)) =
        (totals_after secret input n).a0 ∧
      score_sum secret (guesses_read 1 (game_events secret input n)) =
        (totals_after secret input n).a1 := by
  obtain ⟨h0, h1⟩ := guesses_read_game_events secret input n
  rw [h0, h1]
  simp [score_sum, totals_after, player_total, List.map_map, Function.comp_def]

theorem readers_turn_events (secret : Int) (input : Nat → Nat → Int) (t : Nat) :
    readers (turn_events secret input t) = [t % 2] := rfl

theorem readers_game_events (secret : Int) (input : Nat → Nat → Int) (n : Nat) :
    readers (game_events secret input n) = (List.range n).map (fun t => t % 2) := by
  induction n with
  | zero => rfl
  | succ n ih =>
    rw [game_events, readers, List.filterMap_append, ← readers, ← readers, ih,
      readers_turn_events, List.range_succ, List.map_append]
    rfl

theorem readers_final_events (msg : List Nat) : readers (final_events msg) = [] := rfl

theorem guesses_read_final_events (i : Nat) (msg : List Nat) :
    guesses_read i (final_events msg) = [] := rfl

/-- The number of guesses read by `handle_game` is `turns_played`. -/
theorem readers_handle_game (secret : Int) (input : Nat → Nat → Int) :
    readers (handle_game secret input).trace =
      (List.range (turns_played secret input)).map (fun t => t % 2) := by
  rw [handle_game_trace, readers, List.filterMap_append, ← readers, ← readers,
    readers_game_events, readers_final_events, List.append_nil]

theorem readers_length (secret : Int) (input : Nat → Nat → Int) :
    (readers (handle_game secret input).trace).length = turns_played secret input := by
  rw [readers_handle_game, List.length_map, List.length_range]

/-- The calls of `handle_game` up to the end of turn `m - 1`. -/
theorem handle_game_take (secret : Int) (input : Nat → Nat → Int) (m : Nat)
    (h : m ≤ turns_played secret input) :
    (handle_game secret input).trace.take (5 * m) = game_events secret input m := by
  rw [handle_game_trace, List.take_append_of_le_length
    (by rw [game_events_length]; omega)]
  exact game_events_take secret input m _ h

/-! ## The decimal digits are those of the number -/

theorem foldl_decimal (ds : List Nat) : ∀ a : Nat,
    ds.foldl (fun acc d => 10 * acc + (d - 48)) a = a * 10 ^ ds.length + decimal_value ds := by
  induction ds with
  | nil => intro a; simp [decimal_value]
  | cons d ds ih =>
    intro a
    unfold decimal_value
    rw [List.foldl_cons, List.foldl_cons, ih (10 * a + (d - 48)), ih (10 * 0 + (d - 48)),
      List.length_cons]
    ring

theorem decimal_value_cons (d : Nat) (ds : List Nat) :
    decimal_value (d :: ds) = (d - 48) * 10 ^ ds.length + decimal_value ds := by
  unfold decimal_value
  rw [List.foldl_cons, foldl_decimal]
  simp [decimal_value]

/-- With enough fuel the digits written in front of `acc` are those of `n`. -/
theorem decimal_value_digits_aux (fuel : Nat) : ∀ (n : Nat) (acc : List Nat), n < fuel →
    decimal_value (digits_aux fuel n acc) = n * 10 ^ acc.length + decimal_value acc := by
  induction fuel with
  | zero => intro n acc h; omega
  | succ f ih =>
    intro n acc h
    rw [digits_aux]
    split_ifs with hn
    · rw [decimal_value_cons]
      simp
    · rw [ih (n / 10) _ (by omega), decimal_value_cons, List.length_cons]
      have e : 48 + n % 10 - 48 = n % 10 := by omega
      rw [e, pow_succ]
      have hdm := Nat.div_add_mod n 10
      calc n / 10 * (10 ^ acc.length * 10) + (n % 10 * 10 ^ acc.length + decimal_value acc)
          = (10 * (n / 10) + n % 10) * 10 ^ acc.length + decimal_value acc := by ring
        _ = n * 10 ^ acc.length + decimal_value acc := by rw [hdm]

/-- The digits of `fmt_nat n` write the number `n`: the fuel never runs out. -/
theorem decimal_value_fmt_nat (n : Nat) : decimal_value (fmt_nat n) = n := by
  unfold fmt_nat
  rw [decimal_value_digits_aux (n + 1) n [] (by omega)]
  simp [decimal_value]

/-- For a total `x ≥ 0` the text written by `%d` is the decimal number `x`. -/
theorem decimal_value_fmt_d {x : Int} (h : 0 ≤ x) : (decimal_value (fmt_d x) : Int) = x := by
  unfold fmt_d
  rw [if_neg (by omega), decimal_value_fmt_nat]
  omega

/-! ## No truncation of the scorecard -/

theorem digits_aux_length (k : Nat) : ∀ (fuel n : Nat) (acc : List Nat), n < 10 ^ (k + 1) →
    (digits_aux fuel n acc).length ≤ acc.length + (k + 1) := by
  induction k with
  | zero =>
    intro fuel n acc h
    cases fuel with
    | zero => simp [digits_aux]
    | succ f =>
      have hn : n < 10 := by simpa using h
      simp [digits_aux, hn]
  | succ k ih =>
    intro fuel n acc h
    cases fuel with
    | zero => simp [digits_aux]
    | succ f =>
      rw [digits_aux]
      split_ifs with hn
      · simp
      · have h2 : n / 10 < 10 ^ (k + 1) := by
          rw [Nat.div_lt_iff_lt_mul (by norm_num)]
          calc n < 10 ^ (k + 1 + 1) := h
            _ = 10 ^ (k + 1) * 10 := by ring
        have := ih f (n / 10) ((48 + n % 10) :: acc) h2
        simp only [List.length_cons] at this
        omega

/-- A 32-bit `int` is written by `%d` with at most 11 bytes. -/
theorem fmt_d_length {x : Int} (h : InRange x) : (fmt_d x).length ≤ 11 := by
  unfold InRange INT_MIN INT_MAX at h
  have hn : x.natAbs < 10 ^ (9 + 1) := by
    have : x.natAbs ≤ 2147483648 := by omega
    calc x.natAbs ≤ 2147483648 := this
      _ < 10 ^ (9 + 1) := by norm_num
  have := digits_aux_length 9 (x.natAbs + 1) x.natAbs [] hn
  unfold fmt_d fmt_nat
  split_ifs
  · simp only [List.length_cons]
    simp only [List.length_nil] at this
    omega
  · simp only [List.length_nil] at this
    omega

theorem fmt_d_ne_zero (x : Int) : ∀ b ∈ fmt_d x, b ≠ 0 := by
  intro b hb
  rcases fmt_d_bytes x b hb with h | h <;> omega

/-- A formatted text without NUL that fits the buffer is sent whole. -/
theorem c_string_snprintf_of_fits (size : Nat) (formatted : List Nat)
    (h0 : ∀ b ∈ formatted, b ≠ 0) (hl : formatted.length < size) :
    c_string (snprintf size formatted) = formatted := by
  have := c_string_snprintf_append size formatted [] h0 hl
  rw [List.append_nil] at this
  rw [this]
  simp [c_string, snprintf]

/-- The scorecard buffer holds the whole text of the scorecard, for all `int`
totals: the text has at most 106 bytes. -/
theorem c_string_scorecard {a b : Int} (ha : InRange a) (hb : InRange b) :
    c_string (scorecard a b) = scorecard_text a b := by
  unfold scorecard
  apply c_string_snprintf_of_fits
  · intro c hc
    simp only [List.mem_append] at hc
    rcases hc with (((hc | hc) | hc) | hc) | hc
    · revert c; decide
    · exact fmt_d_ne_zero a c hc
    · revert c; decide
    · exact fmt_d_ne_zero b c hc
    · revert c; decide
  · have la := fmt_d_length ha
    have lb := fmt_d_length hb
    have l1 : (bytes "\n========= SCORECARD =========\nPlayer 1: ").length = 41 := by decide
    have l2 : (bytes "\nPlayer 2: ").length = 11 := by decide
    have l3 : (bytes "\n=============================\n\n").length = 32 := by decide
    simp only [List.length_append, l1, l2, l3]
    omega

/-- The totals after any number of turns up to 1000 are `int`s. -/
theorem totals_after_inRange (secret : Int) (input : Nat → Nat → Int) (n : Nat)
    (hn : n ≤ 1000) :
    InRange (totals_after secret input n).a0 ∧ InRange (totals_after secret input n).a1 := by
  have h0 := player_total_bounds secret input 0 ((n + 1) / 2)
  have h1 := player_total_bounds secret input 1 (n / 2)
  unfold InRange INT_MIN INT_MAX totals_after
  simp only
  omega

theorem stop_turn_le (secret : Int) (input : Nat → Nat → Int) :
    ∀ (left t : Nat), stop_turn secret input left t ≤ t + left := by
  intro left
  induction left with
  | zero => intro t; simp [stop_turn]
  | succ n ih =>
    intro t
    rw [stop_turn_succ]
    split_ifs
    · omega
    · have := ih (t + 1); omega

/-- A game has at most `2 * MAX_TURNS = 6` turns. -/
theorem turns_played_le (secret : Int) (input : Nat → Nat → Int) :
    turns_played secret input ≤ 2 * MAX_TURNS := by
  have := stop_turn_le secret input (2 * MAX_TURNS) 0
  unfold turns_played
  omega

/-! ## What the messages contain -/

/-- The text of the prompt. -/
theorem c_string_prompt : c_string prompt = bytes "Your turn to guess: " := by decide

theorem strstr_eq_false_of_not_mem {hay needle : List Nat} {b : Nat} (hb : b ∈ needle)
    (h : b ∉ hay) : strstr hay needle = false := by
  by_contra hc
  exact h (strstr_mem (by simpa using hc) b hb)

/-- The feedback holds no byte `G`. -/
theorem feedback_no_G (guess score total : Int) : 71 ∉ c_string (feedback guess score total) := by
  intro h
  have h1 := mem_c_string_snprintf h
  simp only [List.mem_append] at h1
  rcases h1 with (((((h1 | h1) | h1) | h1) | h1) | h1) | h1
  · revert h1; decide
  · rcases fmt_d_bytes _ _ h1 with h2 | h2 <;> omega
  · revert h1; decide
  · rcases fmt_d_bytes _ _ h1 with h2 | h2 <;> omega
  · revert h1; decide
  · rcases fmt_d_bytes _ _ h1 with h2 | h2 <;> omega
  · revert h1; decide

/-- The scorecard holds no byte `G`. -/
theorem scorecard_no_G (a b : Int) : 71 ∉ c_string (scorecard a b) := by
  intro h
  have h1 := mem_c_string_snprintf h
  simp only [List.mem_append] at h1
  rcases h1 with (((h1 | h1) | h1) | h1) | h1
  · revert h1; decide
  · rcases fmt_d_bytes _ _ h1 with h2 | h2 <;> omega
  · revert h1; decide
  · rcases fmt_d_bytes _ _ h1 with h2 | h2 <;> omega
  · revert h1; decide

/-- None of the messages of a turn holds the text "Game Over". -/
theorem sent_to_turn_events_no_game_over (secret : Int) (input : Nat → Nat → Int)
    (p t : Nat) : ∀ m ∈ sent_to p (turn_events secret input t),
      strstr m (bytes "Game Over") = false := by
  intro m hm
  have hG : (71 : Nat) ∈ bytes "Game Over" := by decide
  simp only [sent_to, turn_events, List.filterMap_cons, List.filterMap_nil] at hm
  have key : m = c_string prompt ∨
      m = c_string (feedback (guess_at input t) (calculate_score (guess_at input t) secret)
        ((totals_after secret input (t + 1)).get (t % 2))) ∨
      m = c_string (scorecard (totals_after secret input (t + 1)).a0
        (totals_after secret input (t + 1)).a1) := by
    split_ifs at hm <;> simp at hm <;> tauto
  rcases key with rfl | rfl | rfl
  · decide
  · exact strstr_eq_false_of_not_mem hG (feedback_no_G _ _ _)
  · exact strstr_eq_false_of_not_mem hG (scorecard_no_G _ _)

theorem sent_to_game_events_no_game_over (secret : Int) (input : Nat → Nat → Int)
    (p n : Nat) : ∀ m ∈ sent_to p (game_events secret input n),
      strstr m (bytes "Game Over") = false := by
  induction n with
  | zero => intro m hm; simp [sent_to, game_events] at hm
  | succ n ih =>
    intro m hm
    rw [game_events, sent_to, List.filterMap_append, ← sent_to, ← sent_to,
      List.mem_append] at hm
    rcases hm with hm | hm
    · exact ih m hm
    · exact sent_to_turn_events_no_game_over secret input p n m hm

theorem end_msg_exact_lead (seat : Int) :
    ∃ rest, c_string (end_msg_exact seat) = bytes "\nGame Over 🏁. " ++ rest := by
  have e : bytes "\nGame Over 🏁. Player " = bytes "\nGame Over 🏁. " ++ bytes "Player " := by
    decide
  unfold end_msg_exact
  rw [e, List.append_assoc, List.append_assoc,
    c_string_snprintf_append _ _ _ (by decide) (by decide)]
  exact ⟨_, rfl⟩

theorem end_msg_score1_lead (score : Int) :
    ∃ rest, c_string (end_msg_score1 score) = bytes "\nGame Over 🏁. " ++ rest := by
  have e : bytes "\nGame Over 🏁. No one guessed the correct number 😿.\nBut Player 1 wins by score: "
      = bytes "\nGame Over 🏁. " ++
        bytes "No one guessed the correct number 😿.\nBut Player 1 wins by score: " := by
    decide
  unfold end_msg_score1
  rw [e, List.append_assoc, List.append_assoc,
    c_string_snprintf_append _ _ _ (by decide) (by decide)]
  exact ⟨_, rfl⟩

theorem end_msg_score2_lead (score : Int) :
    ∃ rest, c_string (end_msg_score2 score) = bytes "\nGame Over 🏁. " ++ rest := by
  have e : bytes "\nGame Over 🏁. No one guessed the correct number 😿.\nBut Player 2 wins by score: "
      = bytes "\nGame Over 🏁. " ++
        bytes "No one guessed the correct number 😿.\nBut Player 2 wins by score: " := by
    decide
  unfold end_msg_score2
  rw [e, List.append_assoc, List.append_assoc,
    c_string_snprintf_append _ _ _ (by decide) (by decide)]
  exact ⟨_, rfl⟩

theorem end_msg_draw_lead (score : Int) :
    ∃ rest, c_string (end_msg_draw score) = bytes "\nGame Over 🏁. " ++ rest := by
  have e : bytes "\nGame Over 🏁. It's a draw! Both players scored " =
      bytes "\nGame Over 🏁. " ++ bytes "It's a draw! Both players scored " := by
    decide
  unfold end_msg_draw
  rw [e, List.append_assoc, List.append_assoc,
    c_string_snprintf_append _ _ _ (by decide) (by decide)]
  exact ⟨_, rfl⟩

/-- Every end message starts with a newline and "Game Over". -/
theorem c_string_end_msg_lead (s : Server) :
    ∃ rest, c_string (end_msg s) = bytes "\nGame Over 🏁. " ++ rest := by
  unfold end_msg
  split_ifs
  · exact end_msg_exact_lead _
  · exact end_msg_score1_lead _
  · exact end_msg_score2_lead _
  · exact end_msg_draw_lead _

/-- A text that starts with a newline and "Game Over" holds "Game Over". -/
theorem strstr_of_lead {text : List Nat}
    (h : ∃ rest, text = bytes "\nGame Over 🏁. " ++ rest) :
    strstr text (bytes "Game Over") = true := by
  obtain ⟨rest, h⟩ := h
  rw [h]
  exact strstr_append_right rest (by decide)

/-- Every end message holds the text "Game Over", whatever the outcome. -/
theorem end_msg_game_over (s : Server) :
    strstr (c_string (end_msg s)) (bytes "Game Over") = true :=
  strstr_of_lead (c_string_end_msg_lead s)

theorem sent_to_final_events (msg : List Nat) :
    sent_to 0 (final_events msg) = [c_string msg] ∧
      sent_to 1 (final_events msg) = [c_string msg] := ⟨rfl, rfl⟩

/-! ## Prompts and reads -/

theorem ne_of_lead_ne {a r p : List Nat} (h : a ≠ p.take a.length) : a ++ r ≠ p := by
  intro e
  apply h
  rw [← e]
  simp

theorem feedback_ne_prompt (guess score total : Int) :
    c_string (feedback guess score total) ≠ c_string prompt := by
  unfold feedback
  simp only [List.append_assoc]
  rw [c_string_snprintf_append _ _ _ (by decide) (by decide)]
  exact ne_of_lead_ne (by decide)

theorem scorecard_ne_prompt (a b : Int) : c_string (scorecard a b) ≠ c_string prompt := by
  unfold scorecard
  simp only [List.append_assoc]
  rw [c_string_snprintf_append _ _ _ (by decide) (by decide)]
  exact ne_of_lead_ne (by decide)

theorem end_msg_ne_prompt (s : Server) : c_string (end_msg s) ≠ c_string prompt := by
  obtain ⟨rest, h⟩ := c_string_end_msg_lead s
  rw [h]
  exact ne_of_lead_ne (by decide)

theorem prompts_and_reads_turn_events (secret : Int) (input : Nat → Nat → Int) (t : Nat) :
    prompts_and_reads (turn_events secret input t) =
      [Event.send (t % 2) (c_string prompt), Event.read (t % 2) (guess_at input t)] := by
  simp [prompts_and_reads, turn_events, feedback_ne_prompt, scorecard_ne_prompt]

theorem prompts_and_reads_final_events (s : Server) :
    prompts_and_reads (final_events (end_msg s)) = [] := by
  simp [prompts_and_reads, final_events, end_msg_ne_prompt]

theorem prompts_and_reads_game_events (secret : Int) (input : Nat → Nat → Int) (n : Nat) :
    prompts_and_reads (game_events secret input n) =
      (List.range n).flatMap (fun t =>
        [Event.send (t % 2) (c_string prompt), Event.read (t % 2) (guess_at input t)]) := by
  induction n with
  | zero => rfl
  | succ n ih =>
    rw [game_events, prompts_and_reads, List.filter_append, ← prompts_and_reads,
      ← prompts_and_reads, ih, prompts_and_reads_turn_events, List.range_succ,
      List.flatMap_append]
    simp

/-- The prompts and reads of `handle_game`: one prompt and one read per turn
played, alternately, none at the end. -/
theorem prompts_and_reads_handle_game (secret : Int) (input : Nat → Nat → Int) :
    prompts_and_reads (handle_game secret input).trace =
      (List.range (turns_played secret input)).flatMap (fun t =>
        [Event.send (t % 2) (c_string prompt), Event.read (t % 2) (guess_at input t)]) := by
  rw [handle_game_trace, prompts_and_reads, List.filter_append, ← prompts_and_reads,
    ← prompts_and_reads, prompts_and_reads_game_events, prompts_and_reads_final_events,
    List.append_nil]

theorem prompts_sent_turn_events (secret : Int) (input : Nat → Nat → Int) (t : Nat) :
    prompts_sent (turn_events secret input t) = [t % 2] := by
  simp [prompts_sent, turn_events, feedback_ne_prompt, scorecard_ne_prompt]

theorem prompts_sent_final_events (s : Server) :
    prompts_sent (final_events (end_msg s)) = [] := by
  simp [prompts_sent, final_events, end_msg_ne_prompt]

theorem prompts_sent_game_events (secret : Int) (input : Nat → Nat → Int) (n : Nat) :
    prompts_sent (game_events secret input n) = (List.range n).map (fun t => t % 2) := by
  induction n with
  | zero => rfl
  | succ n ih =>
    rw [game_events, prompts_sent, List.filterMap_append, ← prompts_sent, ← prompts_sent, ih,
      prompts_sent_turn_events, List.range_succ, List.map_append]
    rfl

/-- The prompt is sent once per turn played, to the players alternately. -/
theorem prompts_sent_handle_game (secret : Int) (input : Nat → Nat → Int) :
    prompts_sent (handle_game secret input).trace =
      (List.range (turns_played secret input)).map (fun t => t % 2) := by
  rw [handle_game_trace, prompts_sent, List.filterMap_append, ← prompts_sent, ← prompts_sent,
    prompts_sent_game_events, prompts_sent_final_events, List.append_nil]

/-- Among the first `m` turns player 0 takes `(m + 1) / 2` and player 1 takes
`m / 2`. -/
theorem count_alternating (m : Nat) :
    List.count 0 ((List.range m).map (fun t => t % 2)) = (m + 1) / 2 ∧
      List.count 1 ((List.range m).map (fun t => t % 2)) = m / 2 := by
  induction m with
  | zero => exact ⟨rfl, rfl⟩
  | succ m ih =>
    rw [List.range_succ, List.map_append, List.count_append, List.count_append, ih.1, ih.2]
    rcases Nat.mod_two_eq_zero_or_one m with h | h
    · simp only [List.map_cons, List.map_nil, h, List.count_singleton]
      constructor
      · simp; omega
      · simp; omega
    · simp only [List.map_cons, List.map_nil, h, List.count_singleton]
      constructor
      · simp; omega
      · simp; omega

/-- What leads an alternating sequence of turns is an alternating sequence of
turns. -/
theorem lead_of_alternating {l : List Nat} {n : Nat}
    (h : l <+: (List.range n).map (fun t => t % 2)) :
    ∃ m, m ≤ n ∧ l = (List.range m).map (fun t => t % 2) := by
  have hlen := h.length_le
  rw [List.length_map, List.length_range] at hlen
  have e := List.prefix_iff_eq_take.mp h
  rw [← List.map_take, List.take_range, min_eq_left hlen] at e
  exact ⟨l.length, hlen, e⟩

/-! ## Where the play stops -/

/-- With a first turn `k` that scores 100, the play stops after turn `k` or
when the turns are used up. -/
theorem stop_turn_of_first (secret : Int) (input : Nat → Nat → Int) (k : Nat)
    (hk : calculate_score (guess_at input k) secret = 100)
    (hfirst : ∀ u, u < k → calculate_score (guess_at input u) secret ≠ 100) :
    ∀ (left t : Nat), t ≤ k → stop_turn secret input left t = min (t + left) (k + 1) := by
  intro left
  induction left with
  | zero => intro t ht; simp only [stop_turn]; omega
  | succ n ih =>
    intro t ht
    rw [stop_turn_succ]
    by_cases hit : calculate_score (guess_at input t) secret = 100
    · have : t = k := by
        by_contra hne
        exact hfirst t (by omega) hit
      rw [if_pos hit]; omega
    · have hne : t ≠ k := fun e => hit (e ▸ hk)
      rw [if_neg hit, ih (t + 1) (by omega)]; omega

/-- Without a turn that scores 100 all the turns are played. -/
theorem stop_turn_of_none (secret : Int) (input : Nat → Nat → Int)
    (hnone : ∀ u, calculate_score (guess_at input u) secret ≠ 100) :
    ∀ (left t : Nat), stop_turn secret input left t = t + left := by
  intro left
  induction left with
  | zero => intro t; rfl
  | succ n ih =>
    intro t
    rw [stop_turn_succ, if_neg (hnone t), ih (t + 1)]; omega

/-- No turn before the last one scores 100. -/
theorem stop_turn_no_hit_before (secret : Int) (input : Nat → Nat → Int) :
    ∀ (left t u : Nat), t ≤ u → u + 1 < stop_turn secret input left t →
      calculate_score (guess_at input u) secret ≠ 100 := by
  intro left
  induction left with
  | zero => intro t u h1 h2; simp only [stop_turn] at h2; omega
  | succ n ih =>
    intro t u h1 h2
    rw [stop_turn_succ] at h2
    by_cases hit : calculate_score (guess_at input t) secret = 100
    · rw [if_pos hit] at h2; omega
    · rw [if_neg hit] at h2
      rcases Nat.eq_or_lt_of_le h1 with e | hlt
      · exact e ▸ hit
      · exact ih (t + 1) u (by omega) h2

/-- At least one turn is played. -/
theorem turns_played_pos (secret : Int) (input : Nat → Nat → Int) :
    0 < turns_played secret input := by
  unfold turns_played MAX_TURNS
  rw [show 2 * 3 = 5 + 1 from rfl, stop_turn_succ]
  split_ifs
  · omega
  · have : ∀ left t, t ≤ stop_turn secret input left t := by
      intro left
      induction left with
      | zero => intro t; exact le_refl _
      | succ n ih =>
        intro t
        rw [stop_turn_succ]
        split_ifs
        · omega
        · have := ih (t + 1); omega
    have := this 5 (0 + 1)
    omega

/-- When fewer turns than allowed are played, the last one scored 100. -/
theorem stop_turn_last_hit (secret : Int) (input : Nat → Nat → Int) :
    ∀ (left t : Nat), stop_turn secret input left t < t + left →
      ∃ u, u + 1 = stop_turn secret input left t ∧
        calculate_score (guess_at input u) secret = 100 := by
  intro left
  induction left with
  | zero => intro t h; simp only [stop_turn] at h; omega
  | succ n ih =>
    intro t h
    rw [stop_turn_succ] at h ⊢
    by_cases hit : calculate_score (guess_at input t) secret = 100
    · rw [if_pos hit]; exact ⟨t, rfl, hit⟩
    · rw [if_neg hit] at h ⊢
      exact ih (t + 1) (by omega)

/-! ## The guesses read in a whole game -/

theorem guesses_read_handle_game (secret : Int) (input : Nat → Nat → Int) (i : Nat) :
    guesses_read i (handle_game secret input).trace =
      guesses_read i (game_events secret input (turns_played secret input)) := by
  rw [handle_game_trace, guesses_read, List.filterMap_append, ← guesses_read, ← guesses_read,
    guesses_read_final_events, List.append_nil]

/-! ## No truncation of the end message -/

/-- The exact-match message for seat 1, byte for byte. -/
theorem c_string_end_msg_exact_1 :
    c_string (end_msg_exact 1) =
      bytes "\nGame Over 🏁. Player 1 guessed the correct number and wins with 100 points! 🏆\n" := by
  decide

/-- The exact-match message for seat 2, byte for byte. -/
theorem c_string_end_msg_exact_2 :
    c_string (end_msg_exact 2) =
      bytes "\nGame Over 🏁. Player 2 guessed the correct number and wins with 100 points! 🏆\n" := by
  decide

/-- The message of a win by score of player 1 is sent whole for every `int`
score. -/
theorem c_string_end_msg_score1 {x : Int} (h : InRange x) :
    c_string (end_msg_score1 x) =
      bytes "\nGame Over 🏁. No one guessed the correct number 😿.\nBut Player 1 wins by score: " ++
        fmt_d x ++ bytes " 🏆\n" := by
  unfold end_msg_score1
  apply c_string_snprintf_of_fits
  · intro c hc
    simp only [List.mem_append] at hc
    rcases hc with (hc | hc) | hc
    · revert c; decide
    · exact fmt_d_ne_zero x c hc
    · revert c; decide
  · have lx := fmt_d_length h
    have l1 : (bytes "\nGame Over 🏁. No one guessed the correct number 😿.\nBut Player 1 wins by score: ").length
        = 85 := by decide
    have l2 : (bytes " 🏆\n").length = 6 := by decide
    simp only [List.length_append, l1, l2]
    omega

/-- The message of a win by score of player 2 is sent whole for every `int`
score. -/
theorem c_string_end_msg_score2 {x : Int} (h : InRange x) :
    c_string (end_msg_score2 x) =
      bytes "\nGame Over 🏁. No one guessed the correct number 😿.\nBut Player 2 wins by score: " ++
        fmt_d x ++ bytes " 🏆\n" := by
  unfold end_msg_score2
  apply c_string_snprintf_of_fits
  · intro c hc
    simp only [List.mem_append] at hc
    rcases hc with (hc | hc) | hc
    · revert c; decide
    · exact fmt_d_ne_zero x c hc
    · revert c; decide
  · have lx := fmt_d_length h
    have l1 : (bytes "\nGame Over 🏁. No one guessed the correct number 😿.\nBut Player 2 wins by score: ").length
        = 85 := by decide
    have l2 : (bytes " 🏆\n").length = 6 := by decide
    simp only [List.length_append, l1, l2]
    omega

/-- The message of a draw is sent whole for every `int` score. -/
theorem c_string_end_msg_draw {x : Int} (h : InRange x) :
    c_string (end_msg_draw x) =
      bytes "\nGame Over 🏁. It's a draw! Both players scored " ++ fmt_d x ++ bytes " 🤝\n" := by
  unfold end_msg_draw
  apply c_string_snprintf_of_fits
  · intro c hc
    simp only [List.mem_append] at hc
    rcases hc with (hc | hc) | hc
    · revert c; decide
    · exact fmt_d_ne_zero x c hc
    · revert c; decide
  · have lx := fmt_d_length h
    have l1 : (bytes "\nGame Over 🏁. It's a draw! Both players scored ").length = 50 := by
      decide
    have l2 : (bytes " 🤝\n").length = 6 := by decide
    simp only [List.length_append, l1, l2]
    omega

/-- The second example game, evaluated: no exact guess in six turns, totals 150
and 15, and the end message names player 1 as the winner by score with 150. -/
theorem example_by_score_outcome :
    guesses_read 0 (handle_game 50 example_input_by_score).trace = [45, 45, 45] ∧
    guesses_read 1 (handle_game 50 example_input_by_score).trace = [200, 200, 200] ∧
    (handle_game 50 example_input_by_score).player_scores = ⟨150, 15⟩ ∧
    (handle_game 50 example_input_by_score).trace.drop 30 =
      [Event.send 0 (bytes
          "\nGame Over 🏁. No one guessed the correct number 😿.\nBut Player 1 wins by score: 150 🏆\n"),
        Event.close 0,
        Event.send 1 (bytes
          "\nGame Over 🏁. No one guessed the correct number 😿.\nBut Player 1 wins by score: 150 🏆\n"),
        Event.close 1] := by
  have hd : (handle_game 50 example_input_by_score).trace.drop 30 =
      final_events (end_msg_score1 150) := by decide
  have ht : c_string (end_msg_score1 150) = bytes
      "\nGame Over 🏁. No one guessed the correct number 😿.\nBut Player 1 wins by score: 150 🏆\n" := by
    decide
  refine ⟨by decide, by decide, by decide, ?_⟩
  rw [hd, ← ht]
  rfl

/-! ## The scoring rule: claims C1, C2, C3 -/

/-- C1, evaluated where it fails: for `guess = INT_MIN` and `actual = 0` the
difference `guess - actual = INT_MIN` is an `int` (no overflow in the
subtraction) and the distance `2147483648` is above 90, for which the table
gives 5; `abs` overflows on it and `calculate_score` returns 50. -/
theorem C1_calculate_score_at_int_min :
    InRange (-2147483648 - 0) ∧ (90 : Int) < |(-2147483648) - 0| ∧
      score_table |(-2147483648) - 0| = 5 ∧ calculate_score (-2147483648) 0 = 50 := by
  refine ⟨by decide, by decide, by decide, by decide⟩

/-- C2: for all `int` values `g` and `s`, with the subtraction and `abs` computed
in 32-bit `int` arithmetic, `calculate_score g s` is 100 if and only if `g = s`. -/
theorem C2_score_100_iff_exact (g s : Int) (hg : InRange g) (hs : InRange s) :
    calculate_score g s = 100 ↔ g = s :=
  calculate_score_eq_100 hg hs

/-- The statement of C2 at the two extreme `int` values. -/
theorem C2_score_100_iff_exact_witness :
    InRange 2147483647 ∧ InRange (-2147483648) ∧
      (calculate_score 2147483647 (-2147483648) = 100 ↔
        (2147483647 : Int) = -2147483648) :=
  ⟨by decide, by decide, C2_score_100_iff_exact 2147483647 (-2147483648) (by decide) (by decide)⟩

/-- C3, evaluated where it fails: all four values are `int`s, the distance
`|100 - 0| = 100` is below the distance `|INT_MAX - INT_MIN| = 4294967295`, yet
the nearer guess scores 5 and the farther one 50: `INT_MAX - INT_MIN` wraps
to `-1`. -/
theorem C3_score_not_antitone :
    InRange 100 ∧ InRange 0 ∧ InRange 2147483647 ∧ InRange (-2147483648) ∧
      |(100 : Int) - 0| ≤ |(2147483647 : Int) - (-2147483648)| ∧
      calculate_score 100 0 = 5 ∧ calculate_score 2147483647 (-2147483648) = 50 ∧
      ¬ (calculate_score 100 0 ≥ calculate_score 2147483647 (-2147483648)) := by
  refine ⟨by decide, by decide, by decide, by decide, by decide, by decide, by decide, by decide⟩

/-! ## The game: claims C4 to C8 and C10 -/

/-- C4: for every secret and all guesses, every turn `t` that is played (turns
counted from 0, five calls each) ends with one scorecard sent to player 0 and
then to player 1, and the text of that scorecard shows, for player 0 and for
player 1, the sum of `calculate_score guess secret` over the guesses read from
that player up to and including this turn. -/
theorem C4_scorecard_after_every_turn (secret : Int) (input : Nat → Nat → Int) (t : Nat)
    (ht : t < (readers (handle_game secret input).trace).length) :
    (handle_game secret input).trace.take (5 * (t + 1)) =
      (handle_game secret input).trace.take (5 * t) ++
        [Event.send (t % 2) (c_string prompt),
         Event.read (t % 2) (guess_at input t),
         Event.send (t % 2) (c_string (feedback (guess_at input t)
           (calculate_score (guess_at input t) secret)
           (score_sum secret (guesses_read (t % 2)
             ((handle_game secret input).trace.take (5 * (t + 1))))))),
         Event.send 0 (scorecard_text
           (score_sum secret (guesses_read 0
             ((handle_game secret input).trace.take (5 * (t + 1)))))
           (score_sum secret (guesses_read 1
             ((handle_game secret input).trace.take (5 * (t + 1)))))),
         Event.send 1 (scorecard_text
           (score_sum secret (guesses_read 0
             ((handle_game secret input).trace.take (5 * (t + 1)))))
           (score_sum secret (guesses_read 1
             ((handle_game secret input).trace.take (5 * (t + 1))))))] := by
  rw [readers_length] at ht
  have hle := turns_played_le secret input
  rw [handle_game_take secret input (t + 1) ht, handle_game_take secret input t (by omega)]
  obtain ⟨s0, s1⟩ := score_sum_game_events secret input (t + 1)
  obtain ⟨r0, r1⟩ := totals_after_inRange secret input (t + 1) (by unfold MAX_TURNS at hle; omega)
  have hget : score_sum secret (guesses_read (t % 2) (game_events secret input (t + 1))) =
      (totals_after secret input (t + 1)).get (t % 2) := by
    rcases Nat.mod_two_eq_zero_or_one t with h | h
    · rw [h, s0]; rfl
    · rw [h, s1]; rfl
  rw [hget, s0, s1, ← c_string_scorecard r0 r1]
  rfl

/-- The statement of C4 at the last turn of the example game. -/
theorem C4_scorecard_after_every_turn_witness :
    5 < (readers (handle_game 50 example_input).trace).length ∧
    (handle_game 50 example_input).trace.take (5 * (5 + 1)) =
      (handle_game 50 example_input).trace.take (5 * 5) ++
        [Event.send (5 % 2) (c_string prompt),
         Event.read (5 % 2) (guess_at example_input 5),
         Event.send (5 % 2) (c_string (feedback (guess_at example_input 5)
           (calculate_score (guess_at example_input 5) 50)
           (score_sum 50 (guesses_read (5 % 2)
             ((handle_game 50 example_input).trace.take (5 * (5 + 1))))))),
         Event.send 0 (scorecard_text
           (score_sum 50 (guesses_read 0
             ((handle_game 50 example_input).trace.take (5 * (5 + 1)))))
           (score_sum 50 (guesses_read 1
             ((handle_game 50 example_input).trace.take (5 * (5 + 1)))))),
         Event.send 1 (scorecard_text
           (score_sum 50 (guesses_read 0
             ((handle_game 50 example_input).trace.take (5 * (5 + 1)))))
           (score_sum 50 (guesses_read 1
             ((handle_game 50 example_input).trace.take (5 * (5 + 1))))))] :=
  ⟨by decide, C4_scorecard_after_every_turn 50 example_input 5 (by decide)⟩

/-- C5: for every `int` secret and all `int` guesses, the number of turns of
`handle_game` (the number of guesses read, which is also the number of turn
prompts sent) is at most `2 * MAX_TURNS = 6`; it is `min (2 * MAX_TURNS) (k + 1)`
when turn `k`, counted from 0, is the first whose guess equals the secret, and
`2 * MAX_TURNS` when no guess equals the secret. -/
theorem C5_number_of_turns (secret : Int) (input : Nat → Nat → Int) (hs : InRange secret)
    (hi : ∀ i j, InRange (input i j)) :
    2 * MAX_TURNS = 6 ∧
    (readers (handle_game secret input).trace).length ≤ 2 * MAX_TURNS ∧
    (prompts_sent (handle_game secret input).trace).length =
      (readers (handle_game secret input).trace).length ∧
    (∀ k, guess_at input k = secret → (∀ t, t < k → guess_at input t ≠ secret) →
      (readers (handle_game secret input).trace).length = min (2 * MAX_TURNS) (k + 1)) ∧
    ((∀ t, guess_at input t ≠ secret) →
      (readers (handle_game secret input).trace).length = 2 * MAX_TURNS) := by
  have hit : ∀ t, calculate_score (guess_at input t) secret = 100 ↔ guess_at input t = secret :=
    fun t => calculate_score_eq_100 (hi _ _) hs
  refine ⟨rfl, ?_, ?_, ?_, ?_⟩
  · rw [readers_length]
    exact turns_played_le secret input
  · rw [readers_length, prompts_sent_handle_game, List.length_map, List.length_range]
  · intro k hk hfirst
    rw [readers_length]
    unfold turns_played
    rw [stop_turn_of_first secret input k ((hit k).mpr hk)
      (fun u hu h => hfirst u hu ((hit u).mp h)) (2 * MAX_TURNS) 0 (Nat.zero_le k)]
    simp
  · intro hnone
    rw [readers_length]
    unfold turns_played
    rw [stop_turn_of_none secret input (fun u h => hnone u ((hit u).mp h))]
    simp

/-- The statement of C5 at the example game. -/
theorem C5_number_of_turns_witness :
    InRange 50 ∧ (∀ i j, InRange (example_input i j)) ∧
    (2 * MAX_TURNS = 6 ∧
    (readers (handle_game 50 example_input).trace).length ≤ 2 * MAX_TURNS ∧
    (prompts_sent (handle_game 50 example_input).trace).length =
      (readers (handle_game 50 example_input).trace).length ∧
    (∀ k, guess_at example_input k = 50 → (∀ t, t < k → guess_at example_input t ≠ 50) →
      (readers (handle_game 50 example_input).trace).length = min (2 * MAX_TURNS) (k + 1)) ∧
    ((∀ t, guess_at example_input t ≠ 50) →
      (readers (handle_game 50 example_input).trace).length = 2 * MAX_TURNS)) :=
  ⟨by decide, by intro i j; unfold example_input; split_ifs <;> decide,
    C5_number_of_turns 50 example_input (by decide)
      (by intro i j; unfold example_input; split_ifs <;> decide)⟩

/-- C6: for every `int` secret and all `int` guesses, `handle_game` ends, after
the calls of the turns played, with the same text sent to player 0 and to
player 1, each send followed by the close of that socket, and the text is,
byte for byte: "Game Over ... Player 1 guessed the correct number ..." if a
guess read from player 0 (the first seat) equals the secret, the same with
"Player 2" if a guess read from player 1 does; otherwise, with `total0` and
`total1` the sums of the scores of the guesses read from each player,
"... But Player 1 wins by score: total0" if `total0 > total1`,
"... But Player 2 wins by score: total1" if `total1 > total0`, and
"... It's a draw! Both players scored total0" if they are equal, the totals
written in decimal. -/
theorem C6_announced_outcome (secret : Int) (input : Nat → Nat → Int) (hs : InRange secret)
    (hi : ∀ i j, InRange (input i j)) :
    ∃ text : List Nat,
      (handle_game secret input).trace =
        (handle_game secret input).trace.take
          (5 * (readers (handle_game secret input).trace).length) ++
          [Event.send 0 text, Event.close 0, Event.send 1 text, Event.close 1] ∧
      (secret ∈ guesses_read 0 (handle_game secret input).trace →
        text = bytes
          "\nGame Over 🏁. Player 1 guessed the correct number and wins with 100 points! 🏆\n") ∧
      (secret ∈ guesses_read 1 (handle_game secret input).trace →
        text = bytes
          "\nGame Over 🏁. Player 2 guessed the correct number and wins with 100 points! 🏆\n") ∧
      (secret ∉ guesses_read 0 (handle_game secret input).trace →
        secret ∉ guesses_read 1 (handle_game secret input).trace →
        (score_sum secret (guesses_read 0 (handle_game secret input).trace) >
            score_sum secret (guesses_read 1 (handle_game secret input).trace) →
          text = bytes
            "\nGame Over 🏁. No one guessed the correct number 😿.\nBut Player 1 wins by score: " ++
            fmt_d (score_sum secret (guesses_read 0 (handle_game secret input).trace)) ++
            bytes " 🏆\n") ∧
        (score_sum secret (guesses_read 1 (handle_game secret input).trace) >
            score_sum secret (guesses_read 0 (handle_game secret input).trace) →
          text = bytes
            "\nGame Over 🏁. No one guessed the correct number 😿.\nBut Player 2 wins by score: " ++
            fmt_d (score_sum secret (guesses_read 1 (handle_game secret input).trace)) ++
            bytes " 🏆\n") ∧
        (score_sum secret (guesses_read 0 (handle_game secret input).trace) =
            score_sum secret (guesses_read 1 (handle_game secret input).trace) →
          text = bytes "\nGame Over 🏁. It's a draw! Both players scored " ++
            fmt_d (score_sum secret (guesses_read 0 (handle_game secret input).trace)) ++
            bytes " 🤝\n")) := by
  have hit : ∀ t, calculate_score (guess_at input t) secret = 100 ↔ guess_at input t = secret :=
    fun t => calculate_score_eq_100 (hi _ _) hs
  obtain ⟨m, hm⟩ : ∃ m, turns_played secret input = m + 1 :=
    ⟨turns_played secret input - 1, by have := turns_played_pos secret input; omega⟩
  have hle := turns_played_le secret input
  have hnb : ∀ u, u < m → guess_at input u ≠ secret := by
    intro u hu h
    refine stop_turn_no_hit_before secret input (2 * MAX_TURNS) 0 u (Nat.zero_le u) ?_
      ((hit u).mpr h)
    show u + 1 < turns_played secret input
    omega
  obtain ⟨g0, g1⟩ := guesses_read_game_events secret input (m + 1)
  obtain ⟨s0, s1⟩ := score_sum_game_events secret input (m + 1)
  obtain ⟨r0, r1⟩ := totals_after_inRange secret input (m + 1)
    (by unfold MAX_TURNS at hle; omega)
  have hw : (state_after secret input (m + 1)).winner =
      if calculate_score (guess_at input m) secret = 100 then ((m % 2 : Nat) : Int) else -1 :=
    rfl
  have ha0 : (state_after secret input (m + 1)).player_scores.get 0 =
      (totals_after secret input (m + 1)).a0 := rfl
  have ha1 : (state_after secret input (m + 1)).player_scores.get 1 =
      (totals_after secret input (m + 1)).a1 := rfl
  refine ⟨c_string (end_msg (state_after secret input (turns_played secret input))),
    ?_, ?_, ?_, ?_⟩
  · rw [readers_length, handle_game_take secret input _ (le_refl _)]
    exact handle_game_trace secret input
  · intro h0
    rw [guesses_read_handle_game, hm, g0] at h0
    obtain ⟨j, hj, e⟩ := List.mem_map.mp h0
    rw [List.mem_range] at hj
    have hg : guess_at input (2 * j) = secret := by
      unfold guess_at
      rw [show 2 * j % 2 = 0 by omega, show 2 * j / 2 = j by omega]
      exact e
    have hn : ¬ (2 * j < m) := fun h => hnb _ h hg
    have hmj : m = 2 * j := by omega
    have hw0 : (state_after secret input (m + 1)).winner = 0 := by
      rw [hw, if_pos ((hit m).mpr (hmj ▸ hg)), hmj]
      simp
    rw [hm]
    unfold end_msg
    rw [hw0, if_pos (by decide), show wrap32 (0 + 1) = 1 by decide]
    exact c_string_end_msg_exact_1
  · intro h1
    rw [guesses_read_handle_game, hm, g1] at h1
    obtain ⟨j, hj, e⟩ := List.mem_map.mp h1
    rw [List.mem_range] at hj
    have hg : guess_at input (2 * j + 1) = secret := by
      unfold guess_at
      rw [show (2 * j + 1) % 2 = 1 by omega, show (2 * j + 1) / 2 = j by omega]
      exact e
    have hn : ¬ (2 * j + 1 < m) := fun h => hnb _ h hg
    have hmj : m = 2 * j + 1 := by omega
    have hw1 : (state_after secret input (m + 1)).winner = 1 := by
      rw [hw, if_pos ((hit m).mpr (hmj ▸ hg)), hmj]
      simp
      omega
    rw [hm]
    unfold end_msg
    rw [hw1, if_pos (by decide), show wrap32 (1 + 1) = 2 by decide]
    exact c_string_end_msg_exact_2
  · intro h0 h1
    rw [guesses_read_handle_game, hm] at h0 h1 ⊢
    rw [guesses_read_handle_game, hm, s0, s1]
    rw [g0] at h0
    rw [g1] at h1
    have hmiss : ¬ calculate_score (guess_at input m) secret = 100 := by
      rw [hit]
      intro hg
      unfold guess_at at hg
      rcases Nat.mod_two_eq_zero_or_one m with h | h
      · rw [h] at hg
        exact h0 (List.mem_map.mpr ⟨m / 2, List.mem_range.mpr (by omega), hg⟩)
      · rw [h] at hg
        exact h1 (List.mem_map.mpr ⟨m / 2, List.mem_range.mpr (by omega), hg⟩)
    have hwn : (state_after secret input (m + 1)).winner = -1 := by
      rw [hw, if_neg hmiss]
    unfold end_msg
    rw [hwn, ha0, ha1]
    refine ⟨?_, ?_, ?_⟩
    · intro h
      rw [if_neg (by simp), if_pos h]
      exact c_string_end_msg_score1 r0
    · intro h
      rw [if_neg (by simp), if_neg (by omega), if_pos h]
      exact c_string_end_msg_score2 r1
    · intro h
      rw [if_neg (by simp), if_neg (by omega), if_neg (by omega)]
      exact c_string_end_msg_draw r0

/-- The statement of C6 at the second example game, which player 1 wins by
score: there the first total is the larger one and is written "150". -/
theorem C6_announced_outcome_witness :
    InRange 50 ∧ (∀ i j, InRange (example_input_by_score i j)) ∧
    (∃ text : List Nat,
      (handle_game 50 example_input_by_score).trace =
        (handle_game 50 example_input_by_score).trace.take
          (5 * (readers (handle_game 50 example_input_by_score).trace).length) ++
          [Event.send 0 text, Event.close 0, Event.send 1 text, Event.close 1] ∧
      ((50 : Int) ∈ guesses_read 0 (handle_game 50 example_input_by_score).trace →
        text = bytes
          "\nGame Over 🏁. Player 1 guessed the correct number and wins with 100 points! 🏆\n") ∧
      ((50 : Int) ∈ guesses_read 1 (handle_game 50 example_input_by_score).trace →
        text = bytes
          "\nGame Over 🏁. Player 2 guessed the correct number and wins with 100 points! 🏆\n") ∧
      ((50 : Int) ∉ guesses_read 0 (handle_game 50 example_input_by_score).trace →
        (50 : Int) ∉ guesses_read 1 (handle_game 50 example_input_by_score).trace →
        (score_sum 50 (guesses_read 0 (handle_game 50 example_input_by_score).trace) >
            score_sum 50 (guesses_read 1 (handle_game 50 example_input_by_score).trace) →
          text = bytes
            "\nGame Over 🏁. No one guessed the correct number 😿.\nBut Player 1 wins by score: " ++
            fmt_d (score_sum 50 (guesses_read 0 (handle_game 50 example_input_by_score).trace)) ++
            bytes " 🏆\n") ∧
        (score_sum 50 (guesses_read 1 (handle_game 50 example_input_by_score).trace) >
            score_sum 50 (guesses_read 0 (handle_game 50 example_input_by_score).trace) →
          text = bytes
            "\nGame Over 🏁. No one guessed the correct number 😿.\nBut Player 2 wins by score: " ++
            fmt_d (score_sum 50 (guesses_read 1 (handle_game 50 example_input_by_score).trace)) ++
            bytes " 🏆\n") ∧
        (score_sum 50 (guesses_read 0 (handle_game 50 example_input_by_score).trace) =
            score_sum 50 (guesses_read 1 (handle_game 50 example_input_by_score).trace) →
          text = bytes "\nGame Over 🏁. It's a draw! Both players scored " ++
            fmt_d (score_sum 50 (guesses_read 0 (handle_game 50 example_input_by_score).trace)) ++
            bytes " 🤝\n"))) ∧
    score_sum 50 (guesses_read 0 (handle_game 50 example_input_by_score).trace) >
      score_sum 50 (guesses_read 1 (handle_game 50 example_input_by_score).trace) ∧
    fmt_d (score_sum 50 (guesses_read 0 (handle_game 50 example_input_by_score).trace)) =
      bytes "150" :=
  ⟨by decide, by intro i j; unfold example_input_by_score; split_ifs <;> decide,
    C6_announced_outcome 50 example_input_by_score (by decide)
      (by intro i j; unfold example_input_by_score; split_ifs <;> decide),
    by decide, by decide⟩

/-- C7: for every secret and all guesses, the prompts and reads of `handle_game`
are, for the turns `t = 0, 1, ...` played (at most `2 * MAX_TURNS`), the prompt to
player `t % 2` followed by the read of one guess from player `t % 2`; and at
every point of the play (after any number of calls) player 0 has had as many
guesses read as player 1 or one more, and neither more than `MAX_TURNS = 3`. -/
theorem C7_turns_alternate (secret : Int) (input : Nat → Nat → Int) :
    MAX_TURNS = 3 ∧
    (∃ n, n ≤ 2 * MAX_TURNS ∧
      prompts_and_reads (handle_game secret input).trace =
        (List.range n).flatMap (fun t =>
          [Event.send (t % 2) (c_string prompt), Event.read (t % 2) (guess_at input t)])) ∧
    (∀ pre, pre <+: (handle_game secret input).trace →
      (List.count 0 (readers pre) = List.count 1 (readers pre) ∨
        List.count 0 (readers pre) = List.count 1 (readers pre) + 1) ∧
      List.count 0 (readers pre) ≤ MAX_TURNS ∧ List.count 1 (readers pre) ≤ MAX_TURNS) := by
  refine ⟨rfl, ⟨_, turns_played_le secret input, prompts_and_reads_handle_game secret input⟩,
    ?_⟩
  intro pre hpre
  have h1 : readers pre <+: readers (handle_game secret input).trace :=
    List.IsPrefix.filterMap _ hpre
  rw [readers_handle_game] at h1
  obtain ⟨m, hm, e⟩ := lead_of_alternating h1
  have hle := turns_played_le secret input
  obtain ⟨c0, c1⟩ := count_alternating m
  rw [e, c0, c1]
  unfold MAX_TURNS at hle ⊢
  omega

/-- C8: for every secret and all guesses, the messages `handle_game` sends to
player 0, and those it sends to player 1, end with the same end message; that
message holds the text "Game Over", and no message sent before it to either
player does, so each player gets exactly one message with "Game Over", as the
last one.  The end message holds "Game Over" in each of its four forms (exact
win, win by score of either player, draw). -/
theorem C8_game_over_last_and_once (secret : Int) (input : Nat → Nat → Int) :
    (∃ (msg : List Nat) (earlier0 earlier1 : List (List Nat)),
      sent_to 0 (handle_game secret input).trace = earlier0 ++ [c_string msg] ∧
      sent_to 1 (handle_game secret input).trace = earlier1 ++ [c_string msg] ∧
      strstr (c_string msg) (bytes "Game Over") = true ∧
      (∀ m ∈ earlier0, strstr m (bytes "Game Over") = false) ∧
      (∀ m ∈ earlier1, strstr m (bytes "Game Over") = false)) ∧
    ((sent_to 0 (handle_game secret input).trace).filter
      (fun m => strstr m (bytes "Game Over"))).length = 1 ∧
    ((sent_to 1 (handle_game secret input).trace).filter
      (fun m => strstr m (bytes "Game Over"))).length = 1 ∧
    (∀ seat : Int, strstr (c_string (end_msg_exact seat)) (bytes "Game Over") = true) ∧
    (∀ score : Int, strstr (c_string (end_msg_score1 score)) (bytes "Game Over") = true) ∧
    (∀ score : Int, strstr (c_string (end_msg_score2 score)) (bytes "Game Over") = true) ∧
    (∀ score : Int, strstr (c_string (end_msg_draw score)) (bytes "Game Over") = true) := by
  have h0 : sent_to 0 (handle_game secret input).trace =
      sent_to 0 (game_events secret input (turns_played secret input)) ++
        [c_string (end_msg (state_after secret input (turns_played secret input)))] := by
    rw [handle_game_trace, sent_to, List.filterMap_append, ← sent_to, ← sent_to,
      (sent_to_final_events _).1]
  have h1 : sent_to 1 (handle_game secret input).trace =
      sent_to 1 (game_events secret input (turns_played secret input)) ++
        [c_string (end_msg (state_after secret input (turns_played secret input)))] := by
    rw [handle_game_trace, sent_to, List.filterMap_append, ← sent_to, ← sent_to,
      (sent_to_final_events _).2]
  have g := end_msg_game_over (state_after secret input (turns_played secret input))
  have n0 := sent_to_game_events_no_game_over secret input 0 (turns_played secret input)
  have n1 := sent_to_game_events_no_game_over secret input 1 (turns_played secret input)
  have f0 : (sent_to 0 (game_events secret input (turns_played secret input))).filter
      (fun m => strstr m (bytes "Game Over")) = [] := by
    rw [List.filter_eq_nil_iff]
    intro m hm
    simp [n0 m hm]
  have f1 : (sent_to 1 (game_events secret input (turns_played secret input))).filter
      (fun m => strstr m (bytes "Game Over")) = [] := by
    rw [List.filter_eq_nil_iff]
    intro m hm
    simp [n1 m hm]
  refine ⟨⟨_, _, _, h0, h1, g, n0, n1⟩, ?_, ?_, ?_, ?_, ?_, ?_⟩
  · rw [h0, List.filter_append, f0]
    simp [g]
  · rw [h1, List.filter_append, f1]
    simp [g]
  · exact fun seat => strstr_of_lead (end_msg_exact_lead seat)
  · exact fun score => strstr_of_lead (end_msg_score1_lead score)
  · exact fun score => strstr_of_lead (end_msg_score2_lead score)
  · exact fun score => strstr_of_lead (end_msg_draw_lead score)

/-- C10: in the game with secret 50 in which player 0 guesses 45, 45, 45 and
player 1 guesses 200, 200, 50, all six guesses are read, the final totals are
150 for player 0 and 110 for player 1, and the end message sent to both players
declares player 2 (index 1), the one with the lower total, the winner by exact
guess. -/
theorem C10_exact_match_overrides_totals :
    guesses_read 0 (handle_game 50 example_input).trace = [45, 45, 45] ∧
    guesses_read 1 (handle_game 50 example_input).trace = [200, 200, 50] ∧
    (handle_game 50 example_input).player_scores = ⟨150, 110⟩ ∧
    score_sum 50 [45, 45, 45] = 150 ∧ score_sum 50 [200, 200, 50] = 110 ∧
    (handle_game 50 example_input).player_scores.get 1 <
      (handle_game 50 example_input).player_scores.get 0 ∧
    (handle_game 50 example_input).winner = 1 ∧
    (handle_game 50 example_input).trace.drop 30 = final_events (end_msg_exact 2) ∧
    c_string (end_msg_exact 2) =
      bytes "\nGame Over 🏁. Player 2 guessed the correct number and wins with 100 points! 🏆\n" := by
  refine ⟨by decide, by decide, by decide, by decide, by decide, by decide, by decide, by decide,
    by decide⟩

/-! ## The client loop: claim C9 -/

/-- A read of fewer bytes than the buffer holds leaves a NUL in the buffer. -/
theorem buffer_after_read_terminated (valread : Int) (data : List Nat)
    (h : valread < BUFFER_SIZE) : 0 ∈ buffer_after_read valread data := by
  unfold buffer_after_read
  simp only [List.mem_append]
  right
  have hlen : (data.take (min valread.toNat BUFFER_SIZE)).length < BUFFER_SIZE := by
    rw [List.length_take]
    unfold BUFFER_SIZE at h ⊢
    omega
  obtain ⟨k, hk⟩ : ∃ k, BUFFER_SIZE - (data.take (min valread.toNat BUFFER_SIZE)).length = k + 1 :=
    ⟨BUFFER_SIZE - (data.take (min valread.toNat BUFFER_SIZE)).length - 1, by omega⟩
  rw [hk, List.replicate_succ]
  exact List.mem_cons_self _ _

/-- One iteration of the client loop when the buffer holds a NUL after the
read: without data (`valread ≤ 0`) the loop is left and nothing is printed or
sent; with data the text of the buffer is printed first, one guess is sent if
the text holds "Your turn to guess" and none otherwise, and the loop is left
exactly if the text holds "Game Over". -/
theorem client_iteration_terminated (valread : Int) (data : List Nat) (guess : Int)
    (h0 : 0 ∈ buffer_after_read valread data) :
    (valread ≤ 0 → client_iteration valread data guess = some ([], true)) ∧
    (0 < valread → ∃ evs,
      client_iteration valread data guess =
        some (evs, strstr (c_string (buffer_after_read valread data)) (bytes "Game Over")) ∧
      evs.head? = some (ClientEvent.print (c_string (buffer_after_read valread data))) ∧
      guesses_sent evs =
        if strstr (c_string (buffer_after_read valread data)) (bytes "Your turn to guess")
        then [guess] else []) := by
  constructor
  · intro h
    simp [client_iteration, h]
  · intro h
    have hn : ¬ valread ≤ 0 := by omega
    simp only [client_iteration, hn, if_false, array_string, h0, if_true]
    refine ⟨_, rfl, rfl, ?_⟩
    split_ifs <;> rfl

/-- A read that fills the buffer leaves in it the bytes read and nothing else. -/
theorem buffer_after_read_full (data : List Nat) (h : data.length = 1024) :
    buffer_after_read 1024 data = data := by
  have e : min (1024 : Int).toNat BUFFER_SIZE = data.length := by rw [h]; decide
  unfold buffer_after_read
  simp only [e, List.take_length]
  rw [h]
  exact List.append_nil data

/-- C9, evaluated where it fails: a read that fills the whole buffer with 1024
bytes none of which is NUL returns `valread = 1024 > 0` and leaves the buffer
without a terminating NUL, so `printf ("%s", buffer)` and `strstr (buffer, ...)`
read past the end of the buffer: the behaviour of the iteration is
undefined. -/
theorem C9_client_buffer_not_terminated :
    (0 : Int) < 1024 ∧ (List.replicate 1024 65).length = BUFFER_SIZE ∧
      0 ∉ buffer_after_read 1024 (List.replicate 1024 65) ∧
      client_iteration 1024 (List.replicate 1024 65) 7 = none := by
  have hno : 0 ∉ buffer_after_read 1024 (List.replicate 1024 65) := by
    rw [buffer_after_read_full _ (List.length_replicate _ _)]
    intro h
    exact absurd (List.eq_of_mem_replicate h) (by decide)
  refine ⟨by decide, List.length_replicate _ _, hno, ?_⟩
  unfold client_iteration array_string
  rw [if_neg (by decide), if_neg hno]

end GuessGame
